import Mathlib

/-!
Verification of the qoi-parser decoder (chunked `Decoder::decode` in
`src/dec.rs` and streaming `StreamDecoder::feed` in `src/stream/dec.rs`)
against its natural-language specification.

Bytes are modelled as `Nat` values below 256; all u8 arithmetic is done with
explicit wrap-around (`% 256`).  Fixed arrays (`[Pixel; 64]`, `[u8; 4]`) are
modelled as lists whose length is carried as a hypothesis where it matters.
Fallible operations return `Except Error`.  Error message strings mirror the
static text of the source (`format!` arguments are appended with `toString`).
-/

/-- `u8::wrapping_add`. -/
def wadd (a b : Nat) : Nat := (a + b) % 256

/-- `u8::wrapping_sub` (both operands first reduced to u8 range). -/
def wsub (a b : Nat) : Nat := (a % 256 + (256 - b % 256)) % 256

/-- `Wrapping<u8>` multiplication. -/
def wmul (a b : Nat) : Nat := (a * b) % 256

/-- `crate::utils::Error` plus the I/O failures that `Decoder::decode`
propagates from `read_exact` (`anyhow` passes them through verbatim). -/
inductive Error
  | HeaderParseError (msg : String)
  | DecodingError (msg : String)
  | IoError
deriving DecidableEq, Repr

/-- `Pixel` from `src/dec.rs`: four u8 channels. -/
structure Pixel where
  r : Nat
  g : Nat
  b : Nat
  a : Nat
deriving DecidableEq, Repr

/-- `Pixel::default()`, i.e. `Pixel::new(0, 0, 0, 0)`. -/
def Pixel.default : Pixel := ⟨0, 0, 0, 0⟩

/-- `Channels` from `src/dec.rs`. -/
inductive Channels
  | RGB
  | RGBA
deriving DecidableEq, Repr

/-- `impl TryFrom<u8> for Channels`. -/
def Channels.tryFrom (value : Nat) : Except Error Channels :=
  if value = 3 then .ok .RGB
  else if value = 4 then .ok .RGBA
  else .error (.HeaderParseError ("Unknown value for channels: " ++ toString value))

/-- `Colorspace` from `src/dec.rs`. -/
inductive Colorspace
  | sRGB
  | Linear
deriving DecidableEq, Repr

/-- `impl TryFrom<u8> for Colorspace`. -/
def Colorspace.tryFrom (value : Nat) : Except Error Colorspace :=
  if value = 0 then .ok .sRGB
  else if value = 1 then .ok .Linear
  else .error (.HeaderParseError ("Unknown value for colorspace: " ++ toString value))

/-- `Header` from `src/dec.rs`. -/
structure Header where
  magic : List Nat
  width : Nat
  height : Nat
  channels : Channels
  colorspace : Colorspace
deriving DecidableEq, Repr

/-- Big-endian u32 assembly, `b0 << 24 | b1 << 16 | b2 << 8 | b3`
(`byteorder::ReadBytesExt::read_u32::<BigEndian>` does exactly this, and
`StreamDecoder::feed` writes it out literally). -/
def u32be (b0 b1 b2 b3 : Nat) : Nat :=
  (b0 <<< 24) ||| (b1 <<< 16) ||| (b2 <<< 8) ||| b3

/-- `Header::from_bytes` on its 14-byte input.  Validation order as in the
source: magic first, then width/height (read only, never range-checked),
then channels, then colorspace. -/
def Header.from_bytes (data : List Nat) : Except Error Header :=
  match data with
  | [m0, m1, m2, m3, w0, w1, w2, w3, h0, h1, h2, h3, ch, cs] =>
    if m0 = 113 ∧ m1 = 111 ∧ m2 = 105 ∧ m3 = 102 then
      match Channels.tryFrom ch with
      | .error e => .error e
      | .ok chv =>
        match Colorspace.tryFrom cs with
        | .error e => .error e
        | .ok csv =>
          .ok ⟨[m0, m1, m2, m3], u32be w0 w1 w2 w3, u32be h0 h1 h2 h3, chv, csv⟩
    else .error (.HeaderParseError "Magic bytes did not translate to qoif")
  | _ => .error .IoError

/-- `Decoder::hash_pixel`: `r*3 + g*5 + b*7 + a*11` in `Wrapping<u8>`. -/
def hash_pixel (p : Pixel) : Nat :=
  wadd (wadd (wadd (wmul p.r 3) (wmul p.g 5)) (wmul p.b 7)) (wmul p.a 11)

/-- `Decoder` from `src/dec.rs`: last pixel seen plus the 64-slot cache. -/
structure Decoder where
  state : Pixel
  buffer : List Pixel
deriving DecidableEq, Repr

/-- `Decoder::new` (also what `Decoder::reset` restores). -/
def Decoder.new : Decoder :=
  ⟨⟨0, 0, 0, 255⟩, List.replicate 64 Pixel.default⟩

/-- One iteration of the opcode-reading arm of the loop in `Decoder::decode`
(the `else` branch for `run == 0`): reads one opcode from the byte cursor and
returns the new last pixel, the cache after the unconditional
`buffer[hash % 64] = state` write, the run counter set by `QOI_OP_RUN`, and
the remaining bytes.  The common hash write (dec.rs lines 352-354) runs for
every opcode, RUN and INDEX included, so it is folded into each branch. -/
def decodeStep (st : Pixel) (cache : List Pixel) (data : List Nat) :
    Except Error (Pixel × List Pixel × Nat × List Nat) :=
  match data with
  | [] => .error .IoError
  | b :: rest =>
    if b = 254 then
      -- QOI_OP_RGB: three more bytes, alpha kept from state
      match rest with
      | r :: g :: bb :: rest2 =>
        let st' : Pixel := ⟨r, g, bb, st.a⟩
        .ok (st', cache.set (hash_pixel st' % 64) st', 0, rest2)
      | _ => .error .IoError
    else if b = 255 then
      -- QOI_OP_RGBA: four more bytes
      match rest with
      | r :: g :: bb :: a :: rest2 =>
        let st' : Pixel := ⟨r, g, bb, a⟩
        .ok (st', cache.set (hash_pixel st' % 64) st', 0, rest2)
      | _ => .error .IoError
    else if b &&& 192 = 0 then
      -- QOI_OP_INDEX: state = buffer[b]
      let st' := cache.getD b Pixel.default
      .ok (st', cache.set (hash_pixel st' % 64) st', 0, rest)
    else if b &&& 192 = 64 then
      -- QOI_OP_DIFF: 2-bit deltas biased by 2
      let st' : Pixel := ⟨wadd st.r (wsub (b >>> 4 &&& 3) 2),
                          wadd st.g (wsub (b >>> 2 &&& 3) 2),
                          wadd st.b (wsub (b &&& 3) 2), st.a⟩
      .ok (st', cache.set (hash_pixel st' % 64) st', 0, rest)
    else if b &&& 192 = 128 then
      -- QOI_OP_LUMA: 6-bit green delta biased by 32, second byte carries
      -- dr-dg and db-dg biased by 8
      match rest with
      | b2 :: rest2 =>
        let dg := wsub (b &&& 63) 32
        let mid := wsub dg 8
        let st' : Pixel := ⟨wadd st.r (wadd mid (b2 >>> 4 &&& 15)),
                            wadd st.g dg,
                            wadd st.b (wadd mid (b2 &&& 15)), st.a⟩
        .ok (st', cache.set (hash_pixel st' % 64) st', 0, rest2)
      | [] => .error .IoError
    else if b &&& 192 = 192 then
      -- QOI_OP_RUN: sets the run counter; current pixel re-emitted
      .ok (st, cache.set (hash_pixel st % 64) st, b &&& 63, rest)
    else .error (.DecodingError "Unknown tag!")

/-- The pixel-filling loop of `Decoder::decode`: one recursion step per output
pixel (`for pix in img.iter_mut()`), consuming the run counter before reading
the next opcode. -/
def decodeLoop : Pixel → List Pixel → Nat → List Nat → Nat → Except Error (List Pixel)
  | _, _, _, _, 0 => .ok []
  | st, cache, run, data, n + 1 =>
    if run > 0 then
      match decodeLoop st cache (run - 1) data n with
      | .ok ps => .ok (st :: ps)
      | .error e => .error e
    else
      match decodeStep st cache data with
      | .error e => .error e
      | .ok (st', cache', run', rest) =>
        match decodeLoop st' cache' run' rest n with
        | .ok ps => .ok (st' :: ps)
        | .error e => .error e

/-- `Decoder::decode`.  The incoming decoder state is irrelevant because the
source calls `self.reset()` first; reads happen on a byte-list cursor, and a
short read surfaces as `IoError`.  `num_pixels` is `(width * height) as usize`
computed in u32, hence the explicit wrap modulo `2^32`. -/
def Decoder.decode (_self : Decoder) (data : List Nat) :
    Except Error (Header × List Pixel) :=
  if data.length < 14 then .error .IoError
  else
    match Header.from_bytes (data.take 14) with
    | .error e => .error e
    | .ok header =>
      let num_pixels := header.width * header.height % 4294967296
      match decodeLoop ⟨0, 0, 0, 255⟩ (List.replicate 64 Pixel.default) 0
          (data.drop 14) num_pixels with
      | .ok img => .ok (header, img)
      | .error e => .error e

/-- `StreamDecoderOutput` from `src/stream/dec.rs`.  `Pixels` carries the
count and pixel of the returned `PixelsIter` (its entire state). -/
inductive StreamDecoderOutput
  | Finished
  | NeedMore (n : Nat)
  | Pixels (count : Nat) (pixel : Pixel)
  | ImageWidthParsed (w : Nat)
  | ImageHeightParsed (h : Nat)
  | ImageChannelParsed (c : Channels)
  | ImageColorspaceParsed (c : Colorspace)
deriving DecidableEq, Repr

/-- `StreamDecoderState` from `src/stream/dec.rs`; the op counter is an `i8`
whose `-1` value is the no-op-in-flight sentinel. -/
inductive StreamDecoderState
  | NotStarted
  | Finished
  | ParsingHeader (c : Nat)
  | ParsingOp (o : Nat) (c : Int)
deriving DecidableEq, Repr

/-- `StreamDecoder` from `src/stream/dec.rs`. -/
structure StreamDecoder where
  state : StreamDecoderState
  last_pixel : Pixel
  dec_buffer : List Pixel
  buffer : List Nat
  num_pix : Option Nat
  cur_pix : Nat
deriving DecidableEq, Repr

/-- `StreamDecoder::new`: note `last_pixel` starts at `Pixel::default()`
= (0,0,0,0), not the (0,0,0,255) that `reset` establishes. -/
def StreamDecoder.new : StreamDecoder :=
  ⟨.NotStarted, Pixel.default, List.replicate 64 Pixel.default, [0, 0, 0, 0], none, 0⟩

/-- `StreamDecoder::reset`: assigns every field. -/
def StreamDecoder.reset (_self : StreamDecoder) : StreamDecoder :=
  ⟨.NotStarted, ⟨0, 0, 0, 255⟩, List.replicate 64 Pixel.default, [0, 0, 0, 0], none, 0⟩

/-- The epilogue of `StreamDecoder::feed`: add the pixels emitted by this call
to `cur_pix` and transition to `Finished` when the target is reached.  Every
path of `feed` except the early `return`s (magic-byte mismatch and the `?` on
the channel/colorspace `try_into`) goes through this. -/
def finishFeed (s : StreamDecoder) (count : Nat) (out : Except Error StreamDecoderOutput) :
    StreamDecoder × Except Error StreamDecoderOutput :=
  let s2 := { s with cur_pix := s.cur_pix + count }
  if s2.num_pix = some s2.cur_pix then ({ s2 with state := .Finished }, out)
  else (s2, out)

/-- `StreamDecoder::feed`.  Returns the mutated decoder together with the
`Result` value; on an early `return Err` the decoder keeps the mutations made
up to that point and skips the `finishFeed` epilogue. -/
def StreamDecoder.feed (self : StreamDecoder) (byte : Nat) :
    StreamDecoder × Except Error StreamDecoderOutput :=
  let s1 := match self.state with
    | .NotStarted => { self with state := .ParsingHeader 0 }
    | _ => self
  match s1.state with
  | .NotStarted =>
    finishFeed s1 0 (.error (.DecodingError "Not started should not be parsed!"))
  | .Finished => finishFeed s1 0 (.ok .Finished)
  | .ParsingHeader c =>
    if c ≤ 3 then
      -- magic bytes; a mismatch is an early return that skips finishFeed
      let res := match c with
        | 0 => byte == 113
        | 1 => byte == 111
        | 2 => byte == 105
        | 3 => byte == 102
        | _ => false
      if res then
        finishFeed { s1 with state := .ParsingHeader (c + 1) } 0
          (.ok (.NeedMore (if c = 3 then 4 else 3 - c)))
      else (s1, .error (.HeaderParseError ("Failed to parse header: idx=" ++ toString c)))
    else if c ≤ 11 then
      if c = 7 ∨ c = 11 then
        let v := u32be (s1.buffer.getD 0 0) (s1.buffer.getD 1 0) (s1.buffer.getD 2 0) byte
        if c = 7 then
          finishFeed { s1 with state := .ParsingHeader (c + 1), num_pix := some v } 0
            (.ok (.ImageWidthParsed v))
        else
          -- `self.num_pix.unwrap()`: `num_pix` is always set once c > 7
          finishFeed { s1 with state := .ParsingHeader (c + 1),
                                    num_pix := some (s1.num_pix.getD 0 * v) } 0
            (.ok (.ImageHeightParsed v))
      else
        finishFeed { s1 with state := .ParsingHeader (c + 1),
                                  buffer := s1.buffer.set (c % 4) byte } 0
          (.ok (.NeedMore ((11 - c) % 4)))
    else if c = 12 then
      match Channels.tryFrom byte with
      | .error e => (s1, .error e)   -- the `?` operator: early return
      | .ok ch =>
        finishFeed { s1 with state := .ParsingHeader (c + 1) } 0
          (.ok (.ImageChannelParsed ch))
    else if c = 13 then
      match Colorspace.tryFrom byte with
      | .error e => (s1, .error e)   -- the `?` operator: early return
      | .ok cs =>
        finishFeed { s1 with state := .ParsingOp 0 (-1) } 0
          (.ok (.ImageColorspaceParsed cs))
    else finishFeed s1 0 (.error (.HeaderParseError "Invalid index into header."))
  | .ParsingOp o c =>
    let op := if o = 0 ∧ c = -1 then byte else o
    if op = 254 then
      -- QOI_OP_RGB
      if c = -1 then
        finishFeed { s1 with state := .ParsingOp op 0 } 0 (.ok (.NeedMore 3))
      else if c = 0 then
        finishFeed { s1 with last_pixel := { s1.last_pixel with r := byte },
                                  state := .ParsingOp op 1 } 0 (.ok (.NeedMore 2))
      else if c = 1 then
        finishFeed { s1 with last_pixel := { s1.last_pixel with g := byte },
                                  state := .ParsingOp op 2 } 0 (.ok (.NeedMore 1))
      else if c = 2 then
        let lp := { s1.last_pixel with b := byte }
        finishFeed { s1 with last_pixel := lp,
                                  dec_buffer := s1.dec_buffer.set (hash_pixel lp % 64) lp,
                                  state := .ParsingOp 0 (-1) } 1 (.ok (.Pixels 1 lp))
      else finishFeed s1 0 (.error (.DecodingError "RGB parsed too many bytes"))
    else if op = 255 then
      -- QOI_OP_RGBA
      if c = -1 then
        finishFeed { s1 with state := .ParsingOp op 0 } 0 (.ok (.NeedMore 4))
      else if c = 0 then
        finishFeed { s1 with last_pixel := { s1.last_pixel with r := byte },
                                  state := .ParsingOp op 1 } 0 (.ok (.NeedMore 3))
      else if c = 1 then
        finishFeed { s1 with last_pixel := { s1.last_pixel with g := byte },
                                  state := .ParsingOp op 2 } 0 (.ok (.NeedMore 2))
      else if c = 2 then
        finishFeed { s1 with last_pixel := { s1.last_pixel with b := byte },
                                  state := .ParsingOp op 3 } 0 (.ok (.NeedMore 1))
      else if c = 3 then
        let lp := { s1.last_pixel with a := byte }
        finishFeed { s1 with last_pixel := lp,
                                  dec_buffer := s1.dec_buffer.set (hash_pixel lp % 64) lp,
                                  state := .ParsingOp 0 (-1) } 1 (.ok (.Pixels 1 lp))
      else finishFeed s1 0 (.error (.DecodingError "RGBA parsed too many bytes"))
    else if op &&& 192 = 0 then
      -- QOI_OP_INDEX: no cache write
      let lp := s1.dec_buffer.getD op Pixel.default
      finishFeed { s1 with last_pixel := lp, state := .ParsingOp 0 (-1) } 1
        (.ok (.Pixels 1 lp))
    else if op &&& 192 = 64 then
      -- QOI_OP_DIFF
      let lp : Pixel := ⟨wadd s1.last_pixel.r (wsub (op >>> 4 &&& 3) 2),
                         wadd s1.last_pixel.g (wsub (op >>> 2 &&& 3) 2),
                         wadd s1.last_pixel.b (wsub (op &&& 3) 2), s1.last_pixel.a⟩
      finishFeed { s1 with last_pixel := lp,
                                dec_buffer := s1.dec_buffer.set (hash_pixel lp % 64) lp,
                                state := .ParsingOp 0 (-1) } 1 (.ok (.Pixels 1 lp))
    else if op &&& 192 = 128 then
      -- QOI_OP_LUMA
      if c = -1 then
        finishFeed { s1 with buffer := s1.buffer.set 0 (wsub (op &&& 63) 32),
                                  state := .ParsingOp op 1 } 0 (.ok (.NeedMore 1))
      else if c = 1 then
        let dg := s1.buffer.getD 0 0
        let mid := wsub dg 8
        let lp : Pixel := ⟨wadd s1.last_pixel.r (wadd mid (byte >>> 4 &&& 15)),
                           wadd s1.last_pixel.g dg,
                           wadd s1.last_pixel.b (wadd mid (byte &&& 15)), s1.last_pixel.a⟩
        finishFeed { s1 with last_pixel := lp,
                                  dec_buffer := s1.dec_buffer.set (hash_pixel lp % 64) lp,
                                  state := .ParsingOp 0 (-1) } 1 (.ok (.Pixels 1 lp))
      else finishFeed s1 0 (.error (.DecodingError "Luma parsed too many bytes"))
    else if op &&& 192 = 192 then
      -- QOI_OP_RUN: run length biased by one; no cache write
      let run := (op &&& 63) + 1
      finishFeed { s1 with state := .ParsingOp 0 (-1) } run
        (.ok (.Pixels run s1.last_pixel))
    else finishFeed s1 0 (.error (.DecodingError "Invalid op found"))

/-- Feed a byte list one byte at a time, collecting every pixel emitted
through `Pixels` outputs (expanding each `PixelsIter` in order), exactly as
the `test_stream_decoder` harness does.  Stops at the first error. -/
def feedPixels : StreamDecoder → List Nat → StreamDecoder × Except Error (List Pixel)
  | d, [] => (d, .ok [])
  | d, b :: bs =>
    match d.feed b with
    | (d', .error e) => (d', .error e)
    | (d', .ok out) =>
      let ps := match out with
        | .Pixels k p => List.replicate k p
        | _ => []
      match feedPixels d' bs with
      | (d'', .error e) => (d'', .error e)
      | (d'', .ok rest) => (d'', .ok (ps ++ rest))

/-- Modelled from the spec (§4.3/§6, refinement reference for the
chunked/streaming equivalence claim): strict opcode-at-a-time QOI decode
semantics.  It follows the shared opcode semantics of §4.3 and additionally
demands the well-formedness that any stream produced by a conforming QOI
encoder has: every INDEX opcode reads a cache slot whose pixel hashes back to
that slot (encoders address the cache by the pixel's own hash), and no RUN
overshoots the pixel target.  `fuel` only forces structural recursion; any
`fuel ≥ n` gives the same result.  Returns the ordered pixel sequence. -/
def decodeOpsF : Nat → Pixel → List Pixel → List Nat → Nat → Option (List Pixel)
  | _, _, _, _, 0 => some []
  | 0, _, _, _, _ + 1 => none
  | f + 1, st, cache, data, n + 1 =>
    match data with
    | [] => none
    | b :: rest =>
      if b = 254 then
        match rest with
        | r :: g :: bb :: rest2 =>
          let st' : Pixel := ⟨r, g, bb, st.a⟩
          match decodeOpsF f st' (cache.set (hash_pixel st' % 64) st') rest2 n with
          | some ps => some (st' :: ps)
          | none => none
        | _ => none
      else if b = 255 then
        match rest with
        | r :: g :: bb :: a :: rest2 =>
          let st' : Pixel := ⟨r, g, bb, a⟩
          match decodeOpsF f st' (cache.set (hash_pixel st' % 64) st') rest2 n with
          | some ps => some (st' :: ps)
          | none => none
        | _ => none
      else if b &&& 192 = 0 then
        let st' := cache.getD b Pixel.default
        if hash_pixel st' % 64 = b then
          match decodeOpsF f st' cache rest n with
          | some ps => some (st' :: ps)
          | none => none
        else none
      else if b &&& 192 = 64 then
        let st' : Pixel := ⟨wadd st.r (wsub (b >>> 4 &&& 3) 2),
                            wadd st.g (wsub (b >>> 2 &&& 3) 2),
                            wadd st.b (wsub (b &&& 3) 2), st.a⟩
        match decodeOpsF f st' (cache.set (hash_pixel st' % 64) st') rest n with
        | some ps => some (st' :: ps)
        | none => none
      else if b &&& 192 = 128 then
        match rest with
        | b2 :: rest2 =>
          let dg := wsub (b &&& 63) 32
          let mid := wsub dg 8
          let st' : Pixel := ⟨wadd st.r (wadd mid (b2 >>> 4 &&& 15)),
                              wadd st.g dg,
                              wadd st.b (wadd mid (b2 &&& 15)), st.a⟩
          match decodeOpsF f st' (cache.set (hash_pixel st' % 64) st') rest2 n with
          | some ps => some (st' :: ps)
          | none => none
        | [] => none
      else if b &&& 192 = 192 then
        let k := (b &&& 63) + 1
        if k ≤ n + 1 then
          match decodeOpsF f st cache rest (n + 1 - k) with
          | some ps => some (List.replicate k st ++ ps)
          | none => none
        else none
      else none

/-- Modelled from the spec: the strict reference decode of a whole stream:
parse the 14-byte header, then decode exactly `width * height` pixels under
the strict opcode semantics of `decodeOpsF`. -/
def strictDecode (data : List Nat) : Option (Header × List Pixel) :=
  if data.length < 14 then none
  else
    match Header.from_bytes (data.take 14) with
    | .error _ => none
    | .ok header =>
      let n := header.width * header.height
      match decodeOpsF n ⟨0, 0, 0, 255⟩ (List.replicate 64 Pixel.default)
          (data.drop 14) n with
      | some pix => some (header, pix)
      | none => none

/-! ### Concrete byte streams used as test vectors -/

/-- A valid 14-byte header for a 1 by 1 RGB sRGB image. -/
def hdrBytes11 : List Nat := [113, 111, 105, 102, 0, 0, 0, 1, 0, 0, 0, 1, 3, 0]

/-- 1 by 1 image: header plus one RGBA opcode. -/
def exRgba11 : List Nat := hdrBytes11 ++ [255, 10, 20, 30, 40]

/-- 1 by 1 image whose single opcode is RUN with length 1: the emitted pixel
is whatever the decoder's starting pixel is. -/
def exRunFirst : List Nat := hdrBytes11 ++ [192]

/-- 1 by 3 image: RGBA(64,0,0,0) (hashes to cache slot 0), then INDEX 1
(reads the untouched all-zero slot 1; the all-zero pixel hashes to slot 0),
then INDEX 0.  The chunked decoder's unconditional cache write after INDEX
clobbers slot 0 with the all-zero pixel; the streaming decoder leaves
slot 0 holding (64,0,0,0). -/
def exStaleIndex : List Nat :=
  [113, 111, 105, 102, 0, 0, 0, 1, 0, 0, 0, 3, 3, 0] ++ [255, 64, 0, 0, 0] ++ [1] ++ [0]

/-- The first 20 bytes of `exStaleIndex`: everything up to (excluding) the
final INDEX 0 opcode; the last completed opcode is the INDEX 1. -/
def exStaleIndexPrefix : List Nat :=
  [113, 111, 105, 102, 0, 0, 0, 1, 0, 0, 0, 3, 3, 0] ++ [255, 64, 0, 0, 0]

/-- Header-only stream declaring width = height = 65536, so that
`width * height` equals `2^32` and the u32 product wraps to 0. -/
def exOverflow : List Nat := [113, 111, 105, 102, 0, 1, 0, 0, 0, 1, 0, 0, 3, 0]

/-- The header `exOverflow` parses to. -/
def hdrOverflow : Header :=
  ⟨[113, 111, 105, 102], 65536, 65536, .RGB, .sRGB⟩

/-- The header `hdrBytes11` parses to. -/
def hdr11 : Header := ⟨[113, 111, 105, 102], 1, 1, .RGB, .sRGB⟩

/-- The pixel a DIFF opcode byte `b` produces from last pixel `st`. -/
def diffPixel (st : Pixel) (b : Nat) : Pixel :=
  ⟨wadd st.r (wsub (b >>> 4 &&& 3) 2), wadd st.g (wsub (b >>> 2 &&& 3) 2),
   wadd st.b (wsub (b &&& 3) 2), st.a⟩

/-- Simulation relation between the chunked decoder's cache and the strict
reference cache: they agree on every slot whose pixel hashes back to that
slot (precisely the slots a strict INDEX opcode may read).  The chunked
decoder's extra writes (after RUN and INDEX) can only disagree on slots that
are not self-consistent in the strict cache. -/
def CacheRel (cC cS : List Pixel) : Prop :=
  ∀ j : Nat, j < 64 → hash_pixel (cS.getD j Pixel.default) % 64 = j →
    cC.getD j Pixel.default = cS.getD j Pixel.default

/-- The last pixel's hash slot in the strict cache either holds that pixel
or holds a pixel that does not hash back to the slot. -/
def SlotOk (st : Pixel) (cS : List Pixel) : Prop :=
  cS.getD (hash_pixel st % 64) Pixel.default = st ∨
  hash_pixel (cS.getD (hash_pixel st % 64) Pixel.default) % 64 ≠ hash_pixel st % 64

/-! ### General helper lemmas -/

theorem getD_set_self {α} (l : List α) (i : Nat) (v d : α) (h : i < l.length) :
    (l.set i v).getD i d = v := by
  simp [List.getD, List.getElem?_set_self', List.getElem?_eq_getElem h]

theorem getD_set_ne {α} (l : List α) {i j : Nat} (v d : α) (h : i ≠ j) :
    (l.set i v).getD j d = l.getD j d := by
  simp [List.getD, List.getElem?_set_ne h]

theorem set_getD_id {α} (l : List α) (i : Nat) (v d : α) (h : i < l.length)
    (h2 : l.getD i d = v) : l.set i v = l := by
  apply List.ext_getElem?
  intro j
  rcases eq_or_ne i j with rfl | hne
  · rw [List.getElem?_set_self', List.getElem?_eq_getElem h]
    simp only [List.getD, List.get?_eq_getElem?, List.getElem?_eq_getElem h,
      Option.getD_some] at h2
    simp [h2, Function.const]
  · rw [List.getElem?_set_ne hne]

/-- `finishFeed` in closed form. -/
theorem finishFeed_eq (s : StreamDecoder) (k : Nat) (out : Except Error StreamDecoderOutput) :
    finishFeed s k out =
      ({ s with cur_pix := s.cur_pix + k,
                state := if s.num_pix = some (s.cur_pix + k) then .Finished else s.state }, out) := by
  unfold finishFeed
  split <;> simp_all

/-- In the `Finished` state, `feed` returns the decoder unchanged together
with `Ok(Finished)`, whatever byte it is given. -/
theorem feed_finished_stable (d : StreamDecoder) (b : Nat) (h : d.state = .Finished) :
    d.feed b = (d, .ok .Finished) := by
  obtain ⟨st, lp, db, buf, np, cp⟩ := d
  cases h
  unfold StreamDecoder.feed
  dsimp only
  rw [finishFeed_eq]
  split <;> rfl

/-- Feeding any byte list to a `Finished` decoder yields no pixels and leaves
the decoder unchanged. -/
theorem feedPixels_finished (d : StreamDecoder) (bs : List Nat) (h : d.state = .Finished) :
    feedPixels d bs = (d, .ok []) := by
  induction bs with
  | nil => rfl
  | cons b bs ih =>
    unfold feedPixels
    rw [feed_finished_stable d b h]
    dsimp only
    rw [ih]
    rfl

set_option maxHeartbeats 2000000 in
/-- Every `feed` call that returns `Ok` runs the end-of-image check: if the
resulting decoder's pixel count equals its target, its state is `Finished`. -/
theorem feed_ok_target_finished (d : StreamDecoder) (b : Nat) (d' : StreamDecoder)
    (o : StreamDecoderOutput) (n : Nat) (h : d.feed b = (d', .ok o))
    (hnum : d'.num_pix = some n) (hcur : d'.cur_pix = n) : d'.state = .Finished := by
  obtain ⟨st, lp, db, buf, np, cp⟩ := d
  unfold StreamDecoder.feed at h
  cases st <;> dsimp only at h <;> repeat' split at h
  all_goals try rw [finishFeed_eq] at h
  all_goals injection h with h1 h2
  all_goals
    first
    | exact Except.noConfusion h2
    | (subst h1
       dsimp only at hnum hcur ⊢
       try simp only [List.getD_eq_getElem?_getD] at hnum
       simp [hnum, hcur])

/-- C3: once the streaming decoder's running pixel count equals the
header-derived target, the same successful `feed` call already leaves the
machine in `Finished` (the end-of-image check runs in the epilogue of every
call, including a RUN emission that exactly reaches the target), and every
subsequent `feed` call on a `Finished` decoder returns `Finished` without
consuming the byte as an opcode or changing any decoder state. -/
theorem c3_finished_transition :
    (∀ (d : StreamDecoder) (b : Nat) (d' : StreamDecoder) (o : StreamDecoderOutput) (n : Nat),
        d.feed b = (d', .ok o) → d'.num_pix = some n → d'.cur_pix = n →
        d'.state = .Finished) ∧
    (∀ (d : StreamDecoder) (b : Nat), d.state = .Finished → d.feed b = (d, .ok .Finished)) :=
  ⟨feed_ok_target_finished, feed_finished_stable⟩

/-- Witness for C3: a RUN of length 3 that exactly reaches a target of 3
transitions to `Finished` in that very call, and a `Finished` decoder ignores
further bytes. -/
theorem c3_finished_transition_witness :
    (StreamDecoder.feed ⟨.ParsingOp 0 (-1), ⟨5, 6, 7, 8⟩, List.replicate 64 Pixel.default,
        [0, 0, 0, 0], some 3, 0⟩ 194).1.state = .Finished ∧
    StreamDecoder.feed ⟨.Finished, ⟨5, 6, 7, 8⟩, List.replicate 64 Pixel.default,
        [0, 0, 0, 0], some 3, 3⟩ 99 =
      (⟨.Finished, ⟨5, 6, 7, 8⟩, List.replicate 64 Pixel.default, [0, 0, 0, 0], some 3, 3⟩,
        .ok .Finished) :=
  ⟨c3_finished_transition.1
      ⟨.ParsingOp 0 (-1), ⟨5, 6, 7, 8⟩, List.replicate 64 Pixel.default, [0, 0, 0, 0], some 3, 0⟩
      194
      ⟨.Finished, ⟨5, 6, 7, 8⟩, List.replicate 64 Pixel.default, [0, 0, 0, 0], some 3, 3⟩
      (.Pixels 3 ⟨5, 6, 7, 8⟩) 3 (by rfl) (by rfl) (by rfl),
   c3_finished_transition.2
      ⟨.Finished, ⟨5, 6, 7, 8⟩, List.replicate 64 Pixel.default, [0, 0, 0, 0], some 3, 3⟩
      99 (by rfl)⟩

/-- C4 (code bug): the spec requires the last-pixel state to be (0,0,0,255)
before any decoding.  `Decoder::new`/`Decoder::decode`'s reset and
`StreamDecoder::reset` comply, but `StreamDecoder::new` initializes
`last_pixel` with `Pixel::default()` = (0,0,0,0) — contradicting its own
`reset` and the doc comment on `Pixel::default` — so a freshly
constructed streaming decoder emits (0,0,0,0) for a leading RUN where the
chunked decoder and a reset streaming decoder emit (0,0,0,255). -/
theorem c4_initial_pixel_state :
    StreamDecoder.new.last_pixel = ⟨0, 0, 0, 0⟩ ∧
    (⟨0, 0, 0, 0⟩ : Pixel) ≠ ⟨0, 0, 0, 255⟩ ∧
    (StreamDecoder.reset StreamDecoder.new).last_pixel = ⟨0, 0, 0, 255⟩ ∧
    Decoder.new.state = ⟨0, 0, 0, 255⟩ ∧
    (∀ d₁ d₂ : Decoder, Decoder.decode d₁ exRunFirst = Decoder.decode d₂ exRunFirst) ∧
    (feedPixels StreamDecoder.new exRunFirst).2 = .ok [⟨0, 0, 0, 0⟩] ∧
    (feedPixels (StreamDecoder.reset StreamDecoder.new) exRunFirst).2 = .ok [⟨0, 0, 0, 255⟩] ∧
    Decoder.decode Decoder.new exRunFirst = .ok (hdr11, [⟨0, 0, 0, 255⟩]) :=
  ⟨rfl, by decide, rfl, rfl, fun _ _ => rfl, rfl, rfl, rfl⟩

/-- C10: when the four width bytes are all zero, the `feed` call that consumes
the 8th header byte records a pixel target of `some 0`, and because the
end-of-image check runs after every call with `cur_pix = 0`, that same call
transitions straight to `Finished`; height, channel and colorspace bytes are
never parsed — every subsequent `feed` just reports `Finished` and changes
nothing. -/
theorem c10_zero_width_finishes_early (d : StreamDecoder)
    (hst : d.state = .ParsingHeader 7)
    (hb0 : d.buffer.getD 0 0 = 0) (hb1 : d.buffer.getD 1 0 = 0)
    (hb2 : d.buffer.getD 2 0 = 0) (hcp : d.cur_pix = 0) :
    ∃ d' : StreamDecoder, d.feed 0 = (d', .ok (.ImageWidthParsed 0)) ∧
      d'.state = .Finished ∧ d'.num_pix = some 0 ∧
      ∀ b : Nat, d'.feed b = (d', .ok .Finished) := by
  obtain ⟨st, lp, db, buf, np, cp⟩ := d
  dsimp only at hst hb0 hb1 hb2 hcp
  subst hst
  subst hcp
  refine ⟨⟨.Finished, lp, db, buf, some 0, 0⟩, ?_, rfl, rfl,
    fun b => feed_finished_stable _ b rfl⟩
  unfold StreamDecoder.feed
  dsimp only
  rw [hb0, hb1, hb2]
  norm_num [u32be, finishFeed_eq]

/-- Oring a value shifted left by `k` with a value below `2^k` is addition. -/
theorem shiftLeft_lor_eq_add (a b k : Nat) (h : b < 2 ^ k) :
    (a <<< k) ||| b = a * 2 ^ k + b := by
  apply Nat.eq_of_testBit_eq
  intro j
  rw [Nat.testBit_lor, Nat.testBit_shiftLeft,
    show a * 2 ^ k + b = 2 ^ k * a + b by ring, Nat.testBit_mul_pow_two_add _ h]
  rcases lt_or_le j k with hjk | hjk
  · simp [hjk, Nat.not_le.mpr hjk]
  · have hb : b.testBit j = false :=
      Nat.testBit_lt_two_pow (lt_of_lt_of_le h (Nat.pow_le_pow_right (by norm_num) hjk))
    simp [hjk, Nat.not_lt.mpr hjk, hb]

/-- On genuine bytes, `u32be` is the base-256 big-endian value. -/
theorem u32be_eq (b0 b1 b2 b3 : Nat) (_h0 : b0 < 256) (h1 : b1 < 256) (h2 : b2 < 256)
    (h3 : b3 < 256) : u32be b0 b1 b2 b3 = b0 * 16777216 + b1 * 65536 + b2 * 256 + b3 := by
  have e1 : (b2 <<< 8) ||| b3 = b2 * 2 ^ 8 + b3 := shiftLeft_lor_eq_add _ _ 8 (by omega)
  have e2 : (b1 <<< 16) ||| (b2 * 2 ^ 8 + b3) = b1 * 2 ^ 16 + (b2 * 2 ^ 8 + b3) :=
    shiftLeft_lor_eq_add _ _ 16 (by omega)
  have e3 : (b0 <<< 24) ||| (b1 * 2 ^ 16 + (b2 * 2 ^ 8 + b3)) =
      b0 * 2 ^ 24 + (b1 * 2 ^ 16 + (b2 * 2 ^ 8 + b3)) :=
    shiftLeft_lor_eq_add _ _ 24 (by omega)
  unfold u32be
  rw [Nat.lor_assoc, Nat.lor_assoc, e1, e2, e3]
  ring

/-- `Channels::try_from` succeeds exactly on 3 and 4. -/
theorem channels_tryFrom_ok_iff (v : Nat) :
    (∃ c, Channels.tryFrom v = .ok c) ↔ (v = 3 ∨ v = 4) := by
  unfold Channels.tryFrom
  split_ifs <;> simp_all

/-- `Colorspace::try_from` succeeds exactly on 0 and 1. -/
theorem colorspace_tryFrom_ok_iff (v : Nat) :
    (∃ c, Colorspace.tryFrom v = .ok c) ↔ (v = 0 ∨ v = 1) := by
  unfold Colorspace.tryFrom
  split_ifs <;> simp_all

/-- C7: on exactly 14 bytes, `Header::from_bytes` succeeds iff the magic is
the ASCII bytes q,o,i,f, the channel byte is 3 or 4 and the colorspace byte
is 0 or 1; on success width and height are the big-endian 32-bit values of
bytes 4-7 and 8-11 with no range validation (all-zero width is accepted),
and a magic mismatch fails with the magic header error whatever the later
bytes are, i.e. before channel or colorspace is validated. -/
theorem c7_header_parse (m0 m1 m2 m3 w0 w1 w2 w3 h0 h1 h2 h3 ch cs : Nat) :
    ((∃ h : Header,
        Header.from_bytes [m0, m1, m2, m3, w0, w1, w2, w3, h0, h1, h2, h3, ch, cs] = .ok h) ↔
      ((m0 = 113 ∧ m1 = 111 ∧ m2 = 105 ∧ m3 = 102) ∧ (ch = 3 ∨ ch = 4) ∧ (cs = 0 ∨ cs = 1))) ∧
    (∀ h : Header,
      Header.from_bytes [m0, m1, m2, m3, w0, w1, w2, w3, h0, h1, h2, h3, ch, cs] = .ok h →
      h.width = u32be w0 w1 w2 w3 ∧ h.height = u32be h0 h1 h2 h3 ∧ h.magic = [m0, m1, m2, m3]) ∧
    (¬(m0 = 113 ∧ m1 = 111 ∧ m2 = 105 ∧ m3 = 102) →
      Header.from_bytes [m0, m1, m2, m3, w0, w1, w2, w3, h0, h1, h2, h3, ch, cs] =
        .error (.HeaderParseError "Magic bytes did not translate to qoif")) ∧
    (w0 < 256 → w1 < 256 → w2 < 256 → w3 < 256 →
      u32be w0 w1 w2 w3 = w0 * 16777216 + w1 * 65536 + w2 * 256 + w3) := by
  refine ⟨?_, ?_, ?_, fun a0 a1 a2 a3 => u32be_eq w0 w1 w2 w3 a0 a1 a2 a3⟩
  · constructor
    · rintro ⟨h, hh⟩
      unfold Header.from_bytes Channels.tryFrom Colorspace.tryFrom at hh
      dsimp only at hh
      split_ifs at hh <;> simp_all
    · rintro ⟨hm, hch, hcs⟩
      unfold Header.from_bytes Channels.tryFrom Colorspace.tryFrom
      dsimp only
      rw [if_pos hm]
      rcases hch with rfl | rfl <;> rcases hcs with rfl | rfl <;> exact ⟨_, rfl⟩
  · intro h hh
    unfold Header.from_bytes Channels.tryFrom Colorspace.tryFrom at hh
    dsimp only at hh
    split_ifs at hh <;> (try cases hh) <;> simp_all
  · intro hm
    unfold Header.from_bytes
    dsimp only
    rw [if_neg hm]

/-- Witness for C7: a header with zero width and channel 4/colorspace 1 is
accepted; a corrupted magic fails with the magic error even though its
channel/colorspace bytes are invalid too; the big-endian width arithmetic at
a concrete value. -/
theorem c7_header_parse_witness :
    (∃ h : Header, Header.from_bytes [113, 111, 105, 102, 0, 0, 0, 0, 0, 0, 0, 7, 4, 1] = .ok h) ∧
    Header.from_bytes [120, 111, 105, 102, 0, 0, 0, 0, 0, 0, 0, 7, 9, 9] =
      .error (.HeaderParseError "Magic bytes did not translate to qoif") ∧
    u32be 0 0 0 7 = 0 * 16777216 + 0 * 65536 + 0 * 256 + 7 :=
  ⟨(c7_header_parse 113 111 105 102 0 0 0 0 0 0 0 7 4 1).1.mpr (by decide),
   (c7_header_parse 120 111 105 102 0 0 0 0 0 0 0 7 9 9).2.2.1 (by decide),
   (c7_header_parse 113 111 105 102 0 0 0 7 0 0 0 0 3 0).2.2.2
     (by decide) (by decide) (by decide) (by decide)⟩

/-- C8: in both decoders a DIFF opcode adds (stored field − 2) to r, g and b
with 8-bit wrapping arithmetic and leaves alpha unchanged; the stored −2 bias
is +254 modulo 256, so stored value 2 is the identity and stored value 3 is
+1; in particular opcode 0b01101010 = 106 on (100,100,100,255) yields the
same pixel unchanged. -/
theorem c8_diff_semantics :
    (∀ (st : Pixel) (cache : List Pixel) (b : Nat) (rest : List Nat), b &&& 192 = 64 →
      decodeStep st cache (b :: rest) =
        .ok (diffPixel st b, cache.set (hash_pixel (diffPixel st b) % 64) (diffPixel st b),
          0, rest)) ∧
    (∀ (st : Pixel) (cache : List Pixel) (buf : List Nat) (np : Option Nat) (cp : Nat)
      (b : Nat), b &&& 192 = 64 →
      StreamDecoder.feed ⟨.ParsingOp 0 (-1), st, cache, buf, np, cp⟩ b =
        (⟨if np = some (cp + 1) then .Finished else .ParsingOp 0 (-1), diffPixel st b,
           cache.set (hash_pixel (diffPixel st b) % 64) (diffPixel st b), buf, np, cp + 1⟩,
         .ok (.Pixels 1 (diffPixel st b)))) ∧
    (∀ st b, (diffPixel st b).a = st.a) ∧
    (∀ x dfield : Nat, x < 256 → dfield < 4 →
      wadd x (wsub dfield 2) = (x + dfield + 254) % 256) ∧
    diffPixel ⟨100, 100, 100, 255⟩ 106 = ⟨100, 100, 100, 255⟩ ∧
    (∀ x : Nat, x < 256 → wadd x (wsub 3 2) = (x + 1) % 256) := by
  refine ⟨?_, ?_, fun st b => rfl, ?_, by decide, ?_⟩
  · intro st cache b rest hb
    have h254 : ¬b = 254 := by intro h; subst h; exact absurd hb (by decide)
    have h255 : ¬b = 255 := by intro h; subst h; exact absurd hb (by decide)
    have hz : ¬(b &&& 192 = 0) := by rw [hb]; decide
    unfold decodeStep
    dsimp only
    rw [if_neg h254, if_neg h255, if_neg hz, if_pos hb]
    rfl
  · intro st cache buf np cp b hb
    have h254 : ¬b = 254 := by intro h; subst h; exact absurd hb (by decide)
    have h255 : ¬b = 255 := by intro h; subst h; exact absurd hb (by decide)
    have hz : ¬(b &&& 192 = 0) := by rw [hb]; decide
    unfold StreamDecoder.feed
    dsimp only
    norm_num [h254, h255, hz, hb, finishFeed_eq, diffPixel]
  · intro x dfield hx hd
    unfold wadd wsub
    omega
  · intro x hx
    unfold wadd wsub
    omega

/-- Witness for C8: the identity DIFF opcode on (100,100,100,255) in the
chunked step, and stored field 3 meaning +1. -/
theorem c8_diff_semantics_witness :
    decodeStep ⟨100, 100, 100, 255⟩ (List.replicate 64 Pixel.default) [106] =
      .ok (diffPixel ⟨100, 100, 100, 255⟩ 106,
        (List.replicate 64 Pixel.default).set
          (hash_pixel (diffPixel ⟨100, 100, 100, 255⟩ 106) % 64)
          (diffPixel ⟨100, 100, 100, 255⟩ 106), 0, []) ∧
    wadd 10 (wsub 3 2) = (10 + 1) % 256 :=
  ⟨c8_diff_semantics.1 ⟨100, 100, 100, 255⟩ (List.replicate 64 Pixel.default) 106 [] (by decide),
   c8_diff_semantics.2.2.2.2.2 10 (by decide)⟩

/-- The wrapping pixel hash equals the mod-256 arithmetic hash. -/
theorem hash_pixel_eq (p : Pixel) :
    hash_pixel p = (p.r * 3 + p.g * 5 + p.b * 7 + p.a * 11) % 256 := by
  unfold hash_pixel wadd wmul
  omega

/-- Every successful chunked opcode step writes the new last pixel, and
nothing else, at its hash slot (this includes RUN and INDEX: dec.rs lines
352-354 run unconditionally). -/
theorem decodeStep_cache_write (st st' : Pixel) (cache cache' : List Pixel)
    (data rest : List Nat) (run' : Nat)
    (h : decodeStep st cache data = .ok (st', cache', run', rest)) :
    cache' = cache.set (hash_pixel st' % 64) st' := by
  unfold decodeStep at h
  repeat' split at h
  all_goals first
    | exact Except.noConfusion h
    | (simp only [Except.ok.injEq, Prod.mk.injEq] at h
       obtain ⟨e1, e2, e3, e4⟩ := h
       subst e1
       subst e2
       rfl)

set_option maxHeartbeats 2000000 in
/-- A streaming `feed` call either leaves the cache untouched or writes its
new last pixel at that pixel's hash slot. -/
theorem feed_cache_write (d d' : StreamDecoder) (b : Nat)
    (out : Except Error StreamDecoderOutput) (h : d.feed b = (d', out)) :
    d'.dec_buffer = d.dec_buffer ∨
    d'.dec_buffer = d.dec_buffer.set (hash_pixel d'.last_pixel % 64) d'.last_pixel := by
  obtain ⟨st, lp, db, buf, np, cp⟩ := d
  unfold StreamDecoder.feed at h
  cases st <;> dsimp only at h <;> repeat' split at h
  all_goals try rw [finishFeed_eq] at h
  all_goals injection h with h1 h2
  all_goals subst h1
  all_goals first | (left; rfl) | (right; rfl)

/-- C9: the cache hash is `(r*3 + g*5 + b*7 + a*11) mod 256` (all operations
8-bit wrapping), and every cache write in either decoder stores the freshly
produced pixel at exactly that hash reduced mod 64: the chunked step always
writes `cache[hash(state') % 64] = state'`, and a streaming `feed` call either
leaves the cache untouched or writes its new last pixel at
`hash(last_pixel) % 64`. -/
theorem c9_hash_and_cache_index :
    (∀ p : Pixel, hash_pixel p = (p.r * 3 + p.g * 5 + p.b * 7 + p.a * 11) % 256) ∧
    (∀ (st st' : Pixel) (cache cache' : List Pixel) (data rest : List Nat) (run' : Nat),
      decodeStep st cache data = .ok (st', cache', run', rest) →
      cache' = cache.set (hash_pixel st' % 64) st') ∧
    (∀ (d d' : StreamDecoder) (b : Nat) (out : Except Error StreamDecoderOutput),
      d.feed b = (d', out) →
      d'.dec_buffer = d.dec_buffer ∨
      d'.dec_buffer = d.dec_buffer.set (hash_pixel d'.last_pixel % 64) d'.last_pixel) :=
  ⟨hash_pixel_eq,
   fun st st' cache cache' data rest run' h =>
     decodeStep_cache_write st st' cache cache' data rest run' h,
   fun d d' b out h => feed_cache_write d d' b out h⟩

/-- Witness for C9: an RGBA step writes the new pixel at its hash slot; a
DIFF `feed` call's cache change is the hash-slot write of its new pixel. -/
theorem c9_hash_and_cache_index_witness :
    decodeStep ⟨0, 0, 0, 255⟩ (List.replicate 64 Pixel.default) [255, 9, 8, 7, 6] =
      .ok (⟨9, 8, 7, 6⟩,
        (List.replicate 64 Pixel.default).set (hash_pixel ⟨9, 8, 7, 6⟩ % 64) ⟨9, 8, 7, 6⟩,
        0, []) ∧
    (List.replicate 64 Pixel.default).set (hash_pixel ⟨9, 8, 7, 6⟩ % 64) ⟨9, 8, 7, 6⟩ =
      (List.replicate 64 Pixel.default).set (hash_pixel ⟨9, 8, 7, 6⟩ % 64) ⟨9, 8, 7, 6⟩ ∧
    ((StreamDecoder.feed ⟨.ParsingOp 0 (-1), ⟨1, 2, 3, 4⟩, List.replicate 64 Pixel.default,
        [0, 0, 0, 0], some 9, 0⟩ 106).1.dec_buffer =
      (List.replicate 64 Pixel.default) ∨
     (StreamDecoder.feed ⟨.ParsingOp 0 (-1), ⟨1, 2, 3, 4⟩, List.replicate 64 Pixel.default,
        [0, 0, 0, 0], some 9, 0⟩ 106).1.dec_buffer =
      (List.replicate 64 Pixel.default).set
        (hash_pixel (StreamDecoder.feed ⟨.ParsingOp 0 (-1), ⟨1, 2, 3, 4⟩,
            List.replicate 64 Pixel.default, [0, 0, 0, 0], some 9, 0⟩ 106).1.last_pixel % 64)
        (StreamDecoder.feed ⟨.ParsingOp 0 (-1), ⟨1, 2, 3, 4⟩, List.replicate 64 Pixel.default,
            [0, 0, 0, 0], some 9, 0⟩ 106).1.last_pixel) :=
  ⟨by rfl,
   c9_hash_and_cache_index.2.1 ⟨0, 0, 0, 255⟩ ⟨9, 8, 7, 6⟩ (List.replicate 64 Pixel.default)
     ((List.replicate 64 Pixel.default).set (hash_pixel ⟨9, 8, 7, 6⟩ % 64) ⟨9, 8, 7, 6⟩)
     [255, 9, 8, 7, 6] [] 0 (by rfl),
   c9_hash_and_cache_index.2.2
     ⟨.ParsingOp 0 (-1), ⟨1, 2, 3, 4⟩, List.replicate 64 Pixel.default, [0, 0, 0, 0], some 9, 0⟩
     _ 106 _ (by rfl)⟩

/-- A successful `decodeLoop` returns exactly `n` pixels. -/
theorem decodeLoop_length : ∀ (n : Nat) (st : Pixel) (cache : List Pixel) (run : Nat)
    (data : List Nat) (ps : List Pixel), decodeLoop st cache run data n = .ok ps →
    ps.length = n := by
  intro n
  induction n with
  | zero =>
    intro st cache run data ps h
    unfold decodeLoop at h
    injection h with h1
    subst h1
    rfl
  | succ n ih =>
    intro st cache run data ps h
    unfold decodeLoop at h
    split at h
    · split at h
      next ps' heq =>
        injection h with h1
        subst h1
        simp [ih _ _ _ _ _ heq]
      next e heq => exact Except.noConfusion h
    · split at h
      next e heq => exact Except.noConfusion h
      next st' cache' run' rest heq =>
        split at h
        next ps' heq2 =>
          injection h with h1
          subst h1
          simp [ih _ _ _ _ _ heq2]
        next e heq2 => exact Except.noConfusion h

/-- C6 (amended): a successful chunked decode returns exactly
`width * height mod 2^32` pixels together with the parsed header — the wrap
is the u32 multiplication `(width * height) as usize` of the source — and a
zero width or height is accepted, producing the empty pixel sequence.  (On
failure `Except` carries no partial result by construction.) -/
theorem c6_decode_length_amended :
    (∀ (d : Decoder) (data : List Nat) (hdr : Header) (pix : List Pixel),
      Decoder.decode d data = .ok (hdr, pix) →
      pix.length = hdr.width * hdr.height % 4294967296) ∧
    Decoder.decode Decoder.new [113, 111, 105, 102, 0, 0, 0, 0, 0, 0, 0, 5, 3, 0] =
      .ok (⟨[113, 111, 105, 102], 0, 5, .RGB, .sRGB⟩, []) := by
  constructor
  · intro d data hdr pix h
    unfold Decoder.decode at h
    split at h
    · exact Except.noConfusion h
    · split at h
      next e heq => exact Except.noConfusion h
      next hdr' heq =>
        dsimp only at h
        split at h
        next img heq2 =>
          injection h with h1
          simp only [Prod.mk.injEq] at h1
          obtain ⟨e1, e2⟩ := h1
          subst e1
          subst e2
          exact decodeLoop_length _ _ _ _ _ _ heq2
        next e heq2 => exact Except.noConfusion h
  · rfl

/-- Counterexample for C6: at width = height = 65536 the u32 product wraps to
0, so decode succeeds with an empty pixel sequence although
`width * height` is `2^32`, contradicting the claimed exact pixel count. -/
theorem c6_overflow_pixel_count :
    Decoder.decode Decoder.new exOverflow = .ok (hdrOverflow, []) ∧
    hdrOverflow.width * hdrOverflow.height = 4294967296 ∧
    ([] : List Pixel).length ≠ hdrOverflow.width * hdrOverflow.height :=
  ⟨by rfl, by decide, by decide⟩

/-- Witness for C6: a 1 by 1 image decodes to exactly one pixel. -/
theorem c6_decode_length_amended_witness :
    Decoder.decode Decoder.new exRgba11 = .ok (hdr11, [⟨10, 20, 30, 40⟩]) ∧
    ([(⟨10, 20, 30, 40⟩ : Pixel)]).length = hdr11.width * hdr11.height % 4294967296 :=
  ⟨by rfl, c6_decode_length_amended.1 Decoder.new exRgba11 hdr11 [⟨10, 20, 30, 40⟩] (by rfl)⟩

/-- Witness for C10: a decoder at header byte 7 with zero width bytes in its
scratch buffer finishes on the fourth zero width byte. -/
theorem c10_zero_width_finishes_early_witness :
    ∃ d' : StreamDecoder,
      StreamDecoder.feed ⟨.ParsingHeader 7, ⟨0, 0, 0, 255⟩, List.replicate 64 Pixel.default,
        [0, 0, 0, 0], none, 0⟩ 0 = (d', .ok (.ImageWidthParsed 0)) ∧
      d'.state = .Finished ∧ d'.num_pix = some 0 ∧
      ∀ b : Nat, d'.feed b = (d', .ok .Finished) :=
  c10_zero_width_finishes_early
    ⟨.ParsingHeader 7, ⟨0, 0, 0, 255⟩, List.replicate 64 Pixel.default, [0, 0, 0, 0], none, 0⟩
    (by rfl) (by rfl) (by rfl) (by rfl) (by rfl)

/-- Unfolding `decodeLoop` when no run is active. -/
theorem decodeLoop_zero_succ (st : Pixel) (cache : List Pixel) (data : List Nat) (n : Nat) :
    decodeLoop st cache 0 data (n + 1) =
      (match decodeStep st cache data with
        | .error e => .error e
        | .ok (st', cache', run', rest) =>
          match decodeLoop st' cache' run' rest n with
          | .ok ps => .ok (st' :: ps)
          | .error e => .error e) := rfl

/-- Unfolding `decodeLoop` while a run is active: emit the current pixel. -/
theorem decodeLoop_run_succ (st : Pixel) (cache : List Pixel) (r : Nat) (data : List Nat)
    (n : Nat) :
    decodeLoop st cache (r + 1) data (n + 1) =
      (match decodeLoop st cache r data n with
        | .ok ps => .ok (st :: ps)
        | .error e => .error e) := by
  rw [decodeLoop]
  rw [if_pos (Nat.succ_pos r)]
  simp

/-- Counterexample for C5: as the very first opcode of a decode (last pixel
(0,0,0,255), cache all zeros), the RUN byte 0b11000010 makes the chunked
decoder write (0,0,0,255) into cache slot 53 = hash((0,0,0,255)) % 64 —
the cache does not keep the value every slot had before the opcode. -/
theorem c5_chunked_run_writes_cache :
    decodeStep ⟨0, 0, 0, 255⟩ (List.replicate 64 Pixel.default) [194] =
      .ok (⟨0, 0, 0, 255⟩, (List.replicate 64 Pixel.default).set 53 ⟨0, 0, 0, 255⟩, 2, []) ∧
    (List.replicate 64 Pixel.default).set 53 ⟨0, 0, 0, 255⟩ ≠ List.replicate 64 Pixel.default :=
  ⟨by rfl, by decide⟩

/-- C5 (amended): the RUN opcode 0b11000010 emits the current pixel exactly
3 times and consumes only its own byte in both decoders.  The streaming
decoder's cache is untouched.  The chunked decoder, however, rewrites slot
`hash(state) % 64` with the current pixel; that write is the identity
whenever the current pixel is already resident at its hash slot (true after
any pixel-producing opcode, but not, e.g., before the first pixel). -/
theorem c5_run_amended :
    (∀ (st : Pixel) (cache : List Pixel) (buf : List Nat) (np : Option Nat) (cp : Nat),
      StreamDecoder.feed ⟨.ParsingOp 0 (-1), st, cache, buf, np, cp⟩ 194 =
        (⟨if np = some (cp + 3) then .Finished else .ParsingOp 0 (-1), st, cache, buf, np,
          cp + 3⟩, .ok (.Pixels 3 st))) ∧
    (∀ (st : Pixel) (cache : List Pixel) (data : List Nat) (n : Nat),
      decodeLoop st cache 0 (194 :: data) (n + 3) =
        (match decodeLoop st (cache.set (hash_pixel st % 64) st) 0 data n with
          | .ok ps => .ok (st :: st :: st :: ps)
          | .error e => .error e)) ∧
    (∀ (st : Pixel) (cache : List Pixel), cache.length = 64 →
      cache.getD (hash_pixel st % 64) Pixel.default = st →
      cache.set (hash_pixel st % 64) st = cache) := by
  refine ⟨?_, ?_, ?_⟩
  · intro st cache buf np cp
    unfold StreamDecoder.feed
    dsimp only
    simp only [finishFeed_eq, eq_self_iff_true, and_self, if_true]
    rw [show (194 &&& 192 : Nat) = 192 from rfl, show ((194 &&& 63 : Nat) + 1) = 3 from rfl]
    norm_num
  · intro st cache data n
    have hstep : decodeStep st cache (194 :: data) =
        .ok (st, cache.set (hash_pixel st % 64) st, 2, data) := rfl
    rw [decodeLoop_zero_succ, hstep]
    dsimp only
    rw [decodeLoop_run_succ, decodeLoop_run_succ]
    cases hR : decodeLoop st (cache.set (hash_pixel st % 64) st) 0 data n <;> simp [hR]
  · intro st cache hlen hres
    exact set_getD_id _ _ _ _ (by rw [hlen]; exact Nat.mod_lt _ (by norm_num)) hres

/-- Witness for C5: with (0,0,0,255) resident at its hash slot 53, the
chunked RUN cache write is the identity. -/
theorem c5_run_amended_witness :
    ((List.replicate 64 Pixel.default).set 53 ⟨0, 0, 0, 255⟩).length = 64 ∧
    ((List.replicate 64 Pixel.default).set 53 ⟨0, 0, 0, 255⟩).getD
      (hash_pixel ⟨0, 0, 0, 255⟩ % 64) Pixel.default = ⟨0, 0, 0, 255⟩ ∧
    ((List.replicate 64 Pixel.default).set 53 ⟨0, 0, 0, 255⟩).set
      (hash_pixel ⟨0, 0, 0, 255⟩ % 64) ⟨0, 0, 0, 255⟩ =
      (List.replicate 64 Pixel.default).set 53 ⟨0, 0, 0, 255⟩ :=
  ⟨by decide, by decide, c5_run_amended.2.2 ⟨0, 0, 0, 255⟩ _ (by decide) (by decide)⟩

set_option maxHeartbeats 2000000 in
/-- A `Pixels` output of `feed` either left its pixel resident at the pixel's
hash slot (RGB/RGBA/DIFF/LUMA completions write it there), or left the cache
untouched while repeating the current pixel (RUN), or left the cache
untouched while reading some slot verbatim (INDEX — the one case in which
residency can fail). -/
theorem feed_pixels_residency (d d' : StreamDecoder) (b k : Nat) (p : Pixel)
    (hlen : d.dec_buffer.length = 64)
    (h : d.feed b = (d', .ok (.Pixels k p))) :
    d'.dec_buffer.getD (hash_pixel p % 64) Pixel.default = p ∨
    (d'.dec_buffer = d.dec_buffer ∧ p = d.last_pixel) ∨
    (d'.dec_buffer = d.dec_buffer ∧ ∃ j, p = d.dec_buffer.getD j Pixel.default) := by
  obtain ⟨st, lp, db, buf, np, cp⟩ := d
  dsimp only at hlen
  unfold StreamDecoder.feed at h
  cases st <;> dsimp only at h <;> repeat' split at h
  all_goals try rw [finishFeed_eq] at h
  all_goals injection h with h1 h2
  all_goals first
    | exact Except.noConfusion h2
    | (injection h2 with h3
       first
       | exact StreamDecoderOutput.noConfusion h3
       | (injection h3 with hk hp
          subst hp
          subst h1
          first
          | (left
             exact getD_set_self _ _ _ _ (by rw [hlen]; exact Nat.mod_lt _ (by norm_num)))
          | exact Or.inr (Or.inl ⟨rfl, rfl⟩)
          | exact Or.inr (Or.inr ⟨rfl, _, rfl⟩)))

/-- Counterexample for C2: in the streaming decoder, feed the header of a
1 by 3 image, RGBA(64,0,0,0) — which lands in cache slot 0 — and then
INDEX 1.  INDEX 1 produces the untouched slot's pixel P = (0,0,0,0), whose
hash slot is 0; immediately after P is produced, slot 0 still holds
(64,0,0,0), not P. -/
theorem c2_stream_cache_invariant_fails_after_index :
    (StreamDecoder.feed (feedPixels (StreamDecoder.reset StreamDecoder.new)
        exStaleIndexPrefix).1 1).2 = .ok (.Pixels 1 ⟨0, 0, 0, 0⟩) ∧
    (StreamDecoder.feed (feedPixels (StreamDecoder.reset StreamDecoder.new)
        exStaleIndexPrefix).1 1).1.dec_buffer.getD (hash_pixel ⟨0, 0, 0, 0⟩ % 64)
        Pixel.default = ⟨64, 0, 0, 0⟩ ∧
    (⟨64, 0, 0, 0⟩ : Pixel) ≠ ⟨0, 0, 0, 0⟩ :=
  ⟨by rfl, by rfl, by decide⟩

/-- C2 (amended): the cache invariant holds unconditionally in the chunked
decoder — after every opcode the new pixel is written to (and hence resident
at) its hash slot, and run continuations repeat the pixel without touching
the cache.  In the streaming decoder every RGB/RGBA/DIFF/LUMA completion
leaves its pixel resident at its hash slot and RUN preserves both cache and
pixel, but an INDEX opcode reads a slot verbatim without any write, so the
invariant can fail for the pixel it produces. -/
theorem c2_cache_invariant_amended :
    (∀ (st st' : Pixel) (cache cache' : List Pixel) (data rest : List Nat) (run' : Nat),
      cache.length = 64 →
      decodeStep st cache data = .ok (st', cache', run', rest) →
      cache'.getD (hash_pixel st' % 64) Pixel.default = st') ∧
    (∀ (st : Pixel) (cache : List Pixel) (r : Nat) (data : List Nat) (n : Nat),
      decodeLoop st cache (r + 1) data (n + 1) =
        (match decodeLoop st cache r data n with
          | .ok ps => .ok (st :: ps)
          | .error e => .error e)) ∧
    (∀ (d d' : StreamDecoder) (b k : Nat) (p : Pixel),
      d.dec_buffer.length = 64 →
      d.feed b = (d', .ok (.Pixels k p)) →
      d'.dec_buffer.getD (hash_pixel p % 64) Pixel.default = p ∨
      (d'.dec_buffer = d.dec_buffer ∧ p = d.last_pixel) ∨
      (d'.dec_buffer = d.dec_buffer ∧ ∃ j, p = d.dec_buffer.getD j Pixel.default)) := by
  refine ⟨?_, decodeLoop_run_succ, feed_pixels_residency⟩
  intro st st' cache cache' data rest run' hlen h
  rw [decodeStep_cache_write st st' cache cache' data rest run' h]
  exact getD_set_self _ _ _ _ (by rw [hlen]; exact Nat.mod_lt _ (by norm_num))

/-- Witness for C2: an RGBA step leaves (64,0,0,0) resident at its hash
slot 0 in the chunked cache, and the corresponding streaming feed call does
the same. -/
theorem c2_cache_invariant_amended_witness :
    ((List.replicate 64 Pixel.default).set (hash_pixel ⟨64, 0, 0, 0⟩ % 64)
        ⟨64, 0, 0, 0⟩).getD (hash_pixel ⟨64, 0, 0, 0⟩ % 64) Pixel.default = ⟨64, 0, 0, 0⟩ ∧
    ((StreamDecoder.feed ⟨.ParsingOp 255 3, ⟨64, 0, 0, 255⟩, List.replicate 64 Pixel.default,
        [0, 0, 0, 0], some 3, 0⟩ 0).1.dec_buffer.getD (hash_pixel ⟨64, 0, 0, 0⟩ % 64)
        Pixel.default = ⟨64, 0, 0, 0⟩ ∨
      ((StreamDecoder.feed ⟨.ParsingOp 255 3, ⟨64, 0, 0, 255⟩, List.replicate 64 Pixel.default,
          [0, 0, 0, 0], some 3, 0⟩ 0).1.dec_buffer = List.replicate 64 Pixel.default ∧
        (⟨64, 0, 0, 0⟩ : Pixel) = ⟨64, 0, 0, 255⟩) ∨
      ((StreamDecoder.feed ⟨.ParsingOp 255 3, ⟨64, 0, 0, 255⟩, List.replicate 64 Pixel.default,
          [0, 0, 0, 0], some 3, 0⟩ 0).1.dec_buffer = List.replicate 64 Pixel.default ∧
        ∃ j, (⟨64, 0, 0, 0⟩ : Pixel) = (List.replicate 64 Pixel.default).getD j Pixel.default)) :=
  ⟨c2_cache_invariant_amended.1 ⟨0, 0, 0, 255⟩ ⟨64, 0, 0, 0⟩ (List.replicate 64 Pixel.default)
      ((List.replicate 64 Pixel.default).set (hash_pixel ⟨64, 0, 0, 0⟩ % 64) ⟨64, 0, 0, 0⟩)
      [255, 64, 0, 0, 0] [] 0 (by decide) (by rfl),
   c2_cache_invariant_amended.2.2
      ⟨.ParsingOp 255 3, ⟨64, 0, 0, 255⟩, List.replicate 64 Pixel.default, [0, 0, 0, 0], some 3, 0⟩
      _ 0 1 ⟨64, 0, 0, 0⟩ (by decide) (by rfl)⟩

theorem CacheRel_refl (c : List Pixel) : CacheRel c c := fun _ _ _ => rfl

/-- Writing the same pixel at the same slot on both sides preserves the
cache relation. -/
theorem CacheRel_set (cC cS : List Pixel) (i : Nat) (v : Pixel)
    (hlC : cC.length = 64) (hlS : cS.length = 64) (h : CacheRel cC cS) :
    CacheRel (cC.set i v) (cS.set i v) := by
  intro j hj hcond
  by_cases hij : i = j
  · subst hij
    rw [getD_set_self _ _ _ _ (by rw [hlC]; exact hj)]
    rw [getD_set_self _ _ _ _ (by rw [hlS]; exact hj)]
  · rw [getD_set_ne cS v Pixel.default hij] at hcond
    rw [getD_set_ne cC v Pixel.default hij, getD_set_ne cS v Pixel.default hij]
    exact h j hj hcond

/-- After writing a pixel at its own hash slot the slot is self-consistent. -/
theorem SlotOk_write (st' : Pixel) (cS : List Pixel) (hlS : cS.length = 64) :
    SlotOk st' (cS.set (hash_pixel st' % 64) st') := by
  left
  exact getD_set_self _ _ _ _ (by rw [hlS]; exact Nat.mod_lt _ (by norm_num))

/-- The chunked decoder's extra RUN-time write of the current pixel at its
hash slot preserves the cache relation, because a self-consistent slot for
the current pixel already holds it. -/
theorem CacheRel_runWrite (st : Pixel) (cC cS : List Pixel)
    (hlC : cC.length = 64)
    (hrel : CacheRel cC cS) (hslot : SlotOk st cS) :
    CacheRel (cC.set (hash_pixel st % 64) st) cS := by
  intro j hj hcond
  by_cases hij : hash_pixel st % 64 = j
  · subst hij
    rcases hslot with hres | hbad
    · rw [getD_set_self _ _ _ _ (by rw [hlC]; exact Nat.mod_lt _ (by norm_num))]
      exact hres.symm
    · exact absurd hcond hbad
  · rw [getD_set_ne cC st Pixel.default hij]
    exact hrel j hj hcond

/-- A strict-accepted INDEX read yields a pixel whose hash slot holds it. -/
theorem SlotOk_index (cS : List Pixel) (b : Nat)
    (hguard : hash_pixel (cS.getD b Pixel.default) % 64 = b) :
    SlotOk (cS.getD b Pixel.default) cS := by
  left
  rw [hguard]

/-- The chunked decoder's write after a strict-accepted INDEX is the
identity on the related cache. -/
theorem CacheRel_indexWrite (cC cS : List Pixel) (b : Nat)
    (hlC : cC.length = 64)
    (hrel : CacheRel cC cS)
    (hguard : hash_pixel (cS.getD b Pixel.default) % 64 = b) :
    cC.set (hash_pixel (cS.getD b Pixel.default) % 64) (cS.getD b Pixel.default) = cC := by
  have hb64 : b < 64 := hguard ▸ Nat.mod_lt _ (by norm_num)
  have heq : cC.getD b Pixel.default = cS.getD b Pixel.default := hrel b hb64 hguard
  rw [hguard]
  exact set_getD_id cC b _ Pixel.default (by rw [hlC]; exact hb64) heq

/-- Run absorption: with an active run of r (at most the remaining pixel
count), the chunked loop emits r copies of the current pixel and continues
with no run active. -/
theorem decodeLoop_run_absorb : ∀ (r n : Nat) (st : Pixel) (cache : List Pixel)
    (data : List Nat), r ≤ n →
    decodeLoop st cache r data n =
      (match decodeLoop st cache 0 data (n - r) with
        | .ok ps => .ok (List.replicate r st ++ ps)
        | .error e => .error e) := by
  intro r
  induction r with
  | zero =>
    intro n st cache data _
    cases h : decodeLoop st cache 0 data (n - 0) <;> simp_all
  | succ r ih =>
    intro n st cache data hrn
    cases n with
    | zero => omega
    | succ n =>
      rw [decodeLoop_run_succ, ih n st cache data (Nat.le_of_succ_le_succ hrn)]
      have hsub : n + 1 - (r + 1) = n - r := by omega
      rw [hsub]
      cases decodeLoop st cache 0 data (n - r) <;> simp [List.replicate_succ]

/-- `decodeOpsF` at pixel count zero. -/
theorem decodeOpsF_zero (f : Nat) (st : Pixel) (cache : List Pixel) (data : List Nat) :
    decodeOpsF f st cache data 0 = some [] := by
  cases f <;> rfl

set_option maxHeartbeats 4000000 in
/-- The chunked decoder refines the strict reference semantics: whatever the
strict decode produces from a strict cache, the chunked loop produces the
identical pixel list from any related cache. -/
theorem decodeLoop_refines_strict : ∀ (f n : Nat) (st : Pixel) (cC cS : List Pixel)
    (data : List Nat) (pix : List Pixel), n ≤ f → cC.length = 64 → cS.length = 64 →
    CacheRel cC cS → SlotOk st cS →
    decodeOpsF f st cS data n = some pix →
    decodeLoop st cC 0 data n = .ok pix := by
  intro f
  induction f with
  | zero =>
    intro n st cC cS data pix hnf _ _ _ _ h
    have hn : n = 0 := Nat.le_zero.mp hnf
    subst hn
    rw [decodeOpsF_zero] at h
    injection h with h1
    subst h1
    rfl
  | succ f ih =>
    intro n st cC cS data pix hnf hlC hlS hrel hslot h
    cases n with
    | zero =>
      rw [decodeOpsF_zero] at h
      injection h with h1
      subst h1
      rfl
    | succ n =>
      rw [decodeOpsF.eq_def] at h
      dsimp only at h
      cases data with
      | nil => exact Option.noConfusion h
      | cons b rest =>
        dsimp only at h
        rw [decodeLoop_zero_succ]
        by_cases hb254 : b = 254
        · -- QOI_OP_RGB
          subst hb254
          rw [if_pos rfl] at h
          cases rest with
          | nil => exact Option.noConfusion h
          | cons r rest1 =>
            cases rest1 with
            | nil => exact Option.noConfusion h
            | cons g rest2 =>
              cases rest2 with
              | nil => exact Option.noConfusion h
              | cons bb rest3 =>
                dsimp only at h
                cases hrec : decodeOpsF f ⟨r, g, bb, st.a⟩
                    (cS.set (hash_pixel ⟨r, g, bb, st.a⟩ % 64) ⟨r, g, bb, st.a⟩) rest3 n with
                | none => rw [hrec] at h; exact Option.noConfusion h
                | some ps =>
                  rw [hrec] at h
                  dsimp only at h
                  injection h with h1
                  subst h1
                  have hstep : decodeStep st cC (254 :: r :: g :: bb :: rest3) =
                      .ok (⟨r, g, bb, st.a⟩,
                        cC.set (hash_pixel ⟨r, g, bb, st.a⟩ % 64) ⟨r, g, bb, st.a⟩,
                        0, rest3) := rfl
                  rw [hstep]
                  dsimp only
                  rw [ih n _ _ _ _ _ (Nat.le_of_succ_le_succ hnf)
                    (by simp [hlC]) (by simp [hlS])
                    (CacheRel_set cC cS _ _ hlC hlS hrel)
                    (SlotOk_write _ _ hlS) hrec]
        · rw [if_neg hb254] at h
          by_cases hb255 : b = 255
          · -- QOI_OP_RGBA
            subst hb255
            rw [if_pos rfl] at h
            cases rest with
            | nil => exact Option.noConfusion h
            | cons r rest1 =>
              cases rest1 with
              | nil => exact Option.noConfusion h
              | cons g rest2 =>
                cases rest2 with
                | nil => exact Option.noConfusion h
                | cons bb rest3 =>
                  cases rest3 with
                  | nil => exact Option.noConfusion h
                  | cons a rest4 =>
                    dsimp only at h
                    cases hrec : decodeOpsF f ⟨r, g, bb, a⟩
                        (cS.set (hash_pixel ⟨r, g, bb, a⟩ % 64) ⟨r, g, bb, a⟩) rest4 n with
                    | none => rw [hrec] at h; exact Option.noConfusion h
                    | some ps =>
                      rw [hrec] at h
                      dsimp only at h
                      injection h with h1
                      subst h1
                      have hstep : decodeStep st cC (255 :: r :: g :: bb :: a :: rest4) =
                          .ok (⟨r, g, bb, a⟩,
                            cC.set (hash_pixel ⟨r, g, bb, a⟩ % 64) ⟨r, g, bb, a⟩,
                            0, rest4) := rfl
                      rw [hstep]
                      dsimp only
                      rw [ih n _ _ _ _ _ (Nat.le_of_succ_le_succ hnf)
                        (by simp [hlC]) (by simp [hlS])
                        (CacheRel_set cC cS _ _ hlC hlS hrel)
                        (SlotOk_write _ _ hlS) hrec]
          · rw [if_neg hb255] at h
            by_cases hidx : b &&& 192 = 0
            · -- QOI_OP_INDEX
              rw [if_pos hidx] at h
              by_cases hguard : hash_pixel (cS.getD b Pixel.default) % 64 = b
              · rw [if_pos hguard] at h
                cases hrec : decodeOpsF f (cS.getD b Pixel.default) cS rest n with
                | none => rw [hrec] at h; exact Option.noConfusion h
                | some ps =>
                  rw [hrec] at h
                  dsimp only at h
                  injection h with h1
                  subst h1
                  have hb64 : b < 64 := hguard ▸ Nat.mod_lt _ (by norm_num)
                  have heq : cC.getD b Pixel.default = cS.getD b Pixel.default :=
                    hrel b hb64 hguard
                  have hstep : decodeStep st cC (b :: rest) =
                      .ok (cC.getD b Pixel.default,
                        cC.set (hash_pixel (cC.getD b Pixel.default) % 64)
                          (cC.getD b Pixel.default), 0, rest) := by
                    unfold decodeStep
                    dsimp only
                    rw [if_neg hb254, if_neg hb255, if_pos hidx]
                  rw [hstep]
                  dsimp only
                  rw [heq, CacheRel_indexWrite cC cS b hlC hrel hguard]
                  rw [ih n _ _ _ _ _ (Nat.le_of_succ_le_succ hnf) hlC hlS hrel
                    (SlotOk_index cS b hguard) hrec]
              · rw [if_neg hguard] at h
                exact Option.noConfusion h
            · rw [if_neg hidx] at h
              by_cases hdiff : b &&& 192 = 64
              · -- QOI_OP_DIFF
                rw [if_pos hdiff] at h
                cases hrec : decodeOpsF f
                    ⟨wadd st.r (wsub (b >>> 4 &&& 3) 2), wadd st.g (wsub (b >>> 2 &&& 3) 2),
                     wadd st.b (wsub (b &&& 3) 2), st.a⟩
                    (cS.set (hash_pixel ⟨wadd st.r (wsub (b >>> 4 &&& 3) 2),
                        wadd st.g (wsub (b >>> 2 &&& 3) 2),
                        wadd st.b (wsub (b &&& 3) 2), st.a⟩ % 64)
                      ⟨wadd st.r (wsub (b >>> 4 &&& 3) 2), wadd st.g (wsub (b >>> 2 &&& 3) 2),
                       wadd st.b (wsub (b &&& 3) 2), st.a⟩) rest n with
                | none => rw [hrec] at h; exact Option.noConfusion h
                | some ps =>
                  rw [hrec] at h
                  dsimp only at h
                  injection h with h1
                  subst h1
                  have hstep : decodeStep st cC (b :: rest) =
                      .ok (⟨wadd st.r (wsub (b >>> 4 &&& 3) 2),
                            wadd st.g (wsub (b >>> 2 &&& 3) 2),
                            wadd st.b (wsub (b &&& 3) 2), st.a⟩,
                        cC.set (hash_pixel ⟨wadd st.r (wsub (b >>> 4 &&& 3) 2),
                            wadd st.g (wsub (b >>> 2 &&& 3) 2),
                            wadd st.b (wsub (b &&& 3) 2), st.a⟩ % 64)
                          ⟨wadd st.r (wsub (b >>> 4 &&& 3) 2),
                           wadd st.g (wsub (b >>> 2 &&& 3) 2),
                           wadd st.b (wsub (b &&& 3) 2), st.a⟩, 0, rest) := by
                    unfold decodeStep
                    dsimp only
                    rw [if_neg hb254, if_neg hb255, if_neg hidx, if_pos hdiff]
                  rw [hstep]
                  dsimp only
                  rw [ih n _ _ _ _ _ (Nat.le_of_succ_le_succ hnf)
                    (by simp [hlC]) (by simp [hlS])
                    (CacheRel_set cC cS _ _ hlC hlS hrel)
                    (SlotOk_write _ _ hlS) hrec]
              · rw [if_neg hdiff] at h
                by_cases hluma : b &&& 192 = 128
                · -- QOI_OP_LUMA
                  rw [if_pos hluma] at h
                  cases rest with
                  | nil => exact Option.noConfusion h
                  | cons b2 rest2 =>
                    dsimp only at h
                    cases hrec : decodeOpsF f
                        ⟨wadd st.r (wadd (wsub (wsub (b &&& 63) 32) 8) (b2 >>> 4 &&& 15)),
                         wadd st.g (wsub (b &&& 63) 32),
                         wadd st.b (wadd (wsub (wsub (b &&& 63) 32) 8) (b2 &&& 15)), st.a⟩
                        (cS.set (hash_pixel
                            ⟨wadd st.r (wadd (wsub (wsub (b &&& 63) 32) 8) (b2 >>> 4 &&& 15)),
                             wadd st.g (wsub (b &&& 63) 32),
                             wadd st.b (wadd (wsub (wsub (b &&& 63) 32) 8) (b2 &&& 15)),
                             st.a⟩ % 64)
                          ⟨wadd st.r (wadd (wsub (wsub (b &&& 63) 32) 8) (b2 >>> 4 &&& 15)),
                           wadd st.g (wsub (b &&& 63) 32),
                           wadd st.b (wadd (wsub (wsub (b &&& 63) 32) 8) (b2 &&& 15)),
                           st.a⟩) rest2 n with
                    | none => rw [hrec] at h; exact Option.noConfusion h
                    | some ps =>
                      rw [hrec] at h
                      dsimp only at h
                      injection h with h1
                      subst h1
                      have hstep : decodeStep st cC (b :: b2 :: rest2) =
                          .ok (⟨wadd st.r (wadd (wsub (wsub (b &&& 63) 32) 8)
                                  (b2 >>> 4 &&& 15)),
                                wadd st.g (wsub (b &&& 63) 32),
                                wadd st.b (wadd (wsub (wsub (b &&& 63) 32) 8) (b2 &&& 15)),
                                st.a⟩,
                            cC.set (hash_pixel
                                ⟨wadd st.r (wadd (wsub (wsub (b &&& 63) 32) 8)
                                    (b2 >>> 4 &&& 15)),
                                 wadd st.g (wsub (b &&& 63) 32),
                                 wadd st.b (wadd (wsub (wsub (b &&& 63) 32) 8) (b2 &&& 15)),
                                 st.a⟩ % 64)
                              ⟨wadd st.r (wadd (wsub (wsub (b &&& 63) 32) 8)
                                  (b2 >>> 4 &&& 15)),
                               wadd st.g (wsub (b &&& 63) 32),
                               wadd st.b (wadd (wsub (wsub (b &&& 63) 32) 8) (b2 &&& 15)),
                               st.a⟩, 0, rest2) := by
                        unfold decodeStep
                        dsimp only
                        rw [if_neg hb254, if_neg hb255, if_neg hidx, if_neg hdiff,
                          if_pos hluma]
                      rw [hstep]
                      dsimp only
                      rw [ih n _ _ _ _ _ (Nat.le_of_succ_le_succ hnf)
                        (by simp [hlC]) (by simp [hlS])
                        (CacheRel_set cC cS _ _ hlC hlS hrel)
                        (SlotOk_write _ _ hlS) hrec]
                · rw [if_neg hluma] at h
                  by_cases hrun : b &&& 192 = 192
                  · -- QOI_OP_RUN
                    rw [if_pos hrun] at h
                    by_cases hk : (b &&& 63) + 1 ≤ n + 1
                    · rw [if_pos hk] at h
                      cases hrec : decodeOpsF f st cS rest (n + 1 - ((b &&& 63) + 1)) with
                      | none => rw [hrec] at h; exact Option.noConfusion h
                      | some ps =>
                        rw [hrec] at h
                        dsimp only at h
                        injection h with h1
                        subst h1
                        have hstep : decodeStep st cC (b :: rest) =
                            .ok (st, cC.set (hash_pixel st % 64) st, b &&& 63, rest) := by
                          unfold decodeStep
                          dsimp only
                          rw [if_neg hb254, if_neg hb255, if_neg hidx, if_neg hdiff,
                            if_neg hluma, if_pos hrun]
                        rw [hstep]
                        dsimp only
                        rw [decodeLoop_run_absorb (b &&& 63) n st _ rest (by omega)]
                        have hsub : n - (b &&& 63) = n + 1 - ((b &&& 63) + 1) := by omega
                        rw [hsub]
                        rw [ih (n + 1 - ((b &&& 63) + 1)) _ _ _ _ _ (by omega)
                          (by simp [hlC]) hlS
                          (CacheRel_runWrite st cC cS hlC hrel hslot) hslot hrec]
                        dsimp only
                        simp [List.replicate_succ]
                    · rw [if_neg hk] at h
                      exact Option.noConfusion h
                  · rw [if_neg hrun] at h
                    exact Option.noConfusion h

/-- One-step unfolding of `feedPixels`. -/
theorem feedPixels_cons (d : StreamDecoder) (b : Nat) (bs : List Nat) :
    feedPixels d (b :: bs) =
      (match d.feed b with
        | (d', .error e) => (d', .error e)
        | (d', .ok out) =>
          let ps := match out with
            | .Pixels k p => List.replicate k p
            | _ => []
          match feedPixels d' bs with
          | (d'', .error e) => (d'', .error e)
          | (d'', .ok rest) => (d'', .ok (ps ++ rest))) := rfl

/-- Feeding the RGB opcode byte from the no-op-in-flight state. -/
theorem feed_sen_rgb (st : Pixel) (cache : List Pixel) (buf : List Nat) (N cp : Nat)
    (hcp : ¬N = cp) :
    StreamDecoder.feed ⟨.ParsingOp 0 (-1), st, cache, buf, some N, cp⟩ 254 =
      (⟨.ParsingOp 254 0, st, cache, buf, some N, cp⟩, .ok (.NeedMore 3)) := by
  unfold StreamDecoder.feed
  dsimp only
  simp [finishFeed_eq, hcp]

/-- Feeding the red byte of an RGB opcode. -/
theorem feed_rgb0 (st : Pixel) (cache : List Pixel) (buf : List Nat) (N cp r : Nat)
    (hcp : ¬N = cp) :
    StreamDecoder.feed ⟨.ParsingOp 254 0, st, cache, buf, some N, cp⟩ r =
      (⟨.ParsingOp 254 1, ⟨r, st.g, st.b, st.a⟩, cache, buf, some N, cp⟩,
        .ok (.NeedMore 2)) := by
  unfold StreamDecoder.feed
  dsimp only
  simp [finishFeed_eq, hcp]

/-- Feeding the green byte of an RGB opcode. -/
theorem feed_rgb1 (st : Pixel) (cache : List Pixel) (buf : List Nat) (N cp g : Nat)
    (hcp : ¬N = cp) :
    StreamDecoder.feed ⟨.ParsingOp 254 1, st, cache, buf, some N, cp⟩ g =
      (⟨.ParsingOp 254 2, ⟨st.r, g, st.b, st.a⟩, cache, buf, some N, cp⟩,
        .ok (.NeedMore 1)) := by
  unfold StreamDecoder.feed
  dsimp only
  simp [finishFeed_eq, hcp]

/-- Feeding the blue byte of an RGB opcode completes it. -/
theorem feed_rgb2 (st : Pixel) (cache : List Pixel) (buf : List Nat) (N cp bb : Nat) :
    StreamDecoder.feed ⟨.ParsingOp 254 2, st, cache, buf, some N, cp⟩ bb =
      (⟨if N = cp + 1 then .Finished else .ParsingOp 0 (-1), ⟨st.r, st.g, bb, st.a⟩,
         cache.set (hash_pixel ⟨st.r, st.g, bb, st.a⟩ % 64) ⟨st.r, st.g, bb, st.a⟩, buf,
         some N, cp + 1⟩,
        .ok (.Pixels 1 ⟨st.r, st.g, bb, st.a⟩)) := by
  unfold StreamDecoder.feed
  dsimp only
  simp [finishFeed_eq]

/-- Feeding the RGBA opcode byte from the no-op-in-flight state. -/
theorem feed_sen_rgba (st : Pixel) (cache : List Pixel) (buf : List Nat) (N cp : Nat)
    (hcp : ¬N = cp) :
    StreamDecoder.feed ⟨.ParsingOp 0 (-1), st, cache, buf, some N, cp⟩ 255 =
      (⟨.ParsingOp 255 0, st, cache, buf, some N, cp⟩, .ok (.NeedMore 4)) := by
  unfold StreamDecoder.feed
  dsimp only
  simp [finishFeed_eq, hcp]

/-- Feeding the red byte of an RGBA opcode. -/
theorem feed_rgba0 (st : Pixel) (cache : List Pixel) (buf : List Nat) (N cp r : Nat)
    (hcp : ¬N = cp) :
    StreamDecoder.feed ⟨.ParsingOp 255 0, st, cache, buf, some N, cp⟩ r =
      (⟨.ParsingOp 255 1, ⟨r, st.g, st.b, st.a⟩, cache, buf, some N, cp⟩,
        .ok (.NeedMore 3)) := by
  unfold StreamDecoder.feed
  dsimp only
  simp [finishFeed_eq, hcp]

/-- Feeding the green byte of an RGBA opcode. -/
theorem feed_rgba1 (st : Pixel) (cache : List Pixel) (buf : List Nat) (N cp g : Nat)
    (hcp : ¬N = cp) :
    StreamDecoder.feed ⟨.ParsingOp 255 1, st, cache, buf, some N, cp⟩ g =
      (⟨.ParsingOp 255 2, ⟨st.r, g, st.b, st.a⟩, cache, buf, some N, cp⟩,
        .ok (.NeedMore 2)) := by
  unfold StreamDecoder.feed
  dsimp only
  simp [finishFeed_eq, hcp]

/-- Feeding the blue byte of an RGBA opcode. -/
theorem feed_rgba2 (st : Pixel) (cache : List Pixel) (buf : List Nat) (N cp bb : Nat)
    (hcp : ¬N = cp) :
    StreamDecoder.feed ⟨.ParsingOp 255 2, st, cache, buf, some N, cp⟩ bb =
      (⟨.ParsingOp 255 3, ⟨st.r, st.g, bb, st.a⟩, cache, buf, some N, cp⟩,
        .ok (.NeedMore 1)) := by
  unfold StreamDecoder.feed
  dsimp only
  simp [finishFeed_eq, hcp]

/-- Feeding the alpha byte of an RGBA opcode completes it. -/
theorem feed_rgba3 (st : Pixel) (cache : List Pixel) (buf : List Nat) (N cp a : Nat) :
    StreamDecoder.feed ⟨.ParsingOp 255 3, st, cache, buf, some N, cp⟩ a =
      (⟨if N = cp + 1 then .Finished else .ParsingOp 0 (-1), ⟨st.r, st.g, st.b, a⟩,
         cache.set (hash_pixel ⟨st.r, st.g, st.b, a⟩ % 64) ⟨st.r, st.g, st.b, a⟩, buf,
         some N, cp + 1⟩,
        .ok (.Pixels 1 ⟨st.r, st.g, st.b, a⟩)) := by
  unfold StreamDecoder.feed
  dsimp only
  simp [finishFeed_eq]

/-- Feeding an INDEX opcode byte: one pixel read verbatim, no cache write. -/
theorem feed_sen_index (st : Pixel) (cache : List Pixel) (buf : List Nat) (N cp b : Nat)
    (hb254 : ¬b = 254) (hb255 : ¬b = 255) (hidx : b &&& 192 = 0) :
    StreamDecoder.feed ⟨.ParsingOp 0 (-1), st, cache, buf, some N, cp⟩ b =
      (⟨if N = cp + 1 then .Finished else .ParsingOp 0 (-1), cache.getD b Pixel.default,
         cache, buf, some N, cp + 1⟩,
        .ok (.Pixels 1 (cache.getD b Pixel.default))) := by
  unfold StreamDecoder.feed
  dsimp only
  simp [finishFeed_eq, hb254, hb255, hidx]

/-- Feeding a DIFF opcode byte. -/
theorem feed_sen_diff (st : Pixel) (cache : List Pixel) (buf : List Nat) (N cp b : Nat)
    (hb254 : ¬b = 254) (hb255 : ¬b = 255) (hdiff : b &&& 192 = 64) :
    StreamDecoder.feed ⟨.ParsingOp 0 (-1), st, cache, buf, some N, cp⟩ b =
      (⟨if N = cp + 1 then .Finished else .ParsingOp 0 (-1),
         ⟨wadd st.r (wsub (b >>> 4 &&& 3) 2), wadd st.g (wsub (b >>> 2 &&& 3) 2),
          wadd st.b (wsub (b &&& 3) 2), st.a⟩,
         cache.set (hash_pixel ⟨wadd st.r (wsub (b >>> 4 &&& 3) 2),
             wadd st.g (wsub (b >>> 2 &&& 3) 2), wadd st.b (wsub (b &&& 3) 2), st.a⟩ % 64)
           ⟨wadd st.r (wsub (b >>> 4 &&& 3) 2), wadd st.g (wsub (b >>> 2 &&& 3) 2),
            wadd st.b (wsub (b &&& 3) 2), st.a⟩, buf, some N, cp + 1⟩,
        .ok (.Pixels 1 ⟨wadd st.r (wsub (b >>> 4 &&& 3) 2),
          wadd st.g (wsub (b >>> 2 &&& 3) 2), wadd st.b (wsub (b &&& 3) 2), st.a⟩)) := by
  unfold StreamDecoder.feed
  dsimp only
  have hz : ¬(b &&& 192 = 0) := by rw [hdiff]; decide
  simp [finishFeed_eq, hb254, hb255, hz, hdiff]

/-- Feeding a LUMA opcode byte starts a two-byte opcode. -/
theorem feed_sen_luma (st : Pixel) (cache : List Pixel) (buf : List Nat) (N cp b : Nat)
    (hcp : ¬N = cp) (hb254 : ¬b = 254) (hb255 : ¬b = 255) (hluma : b &&& 192 = 128) :
    StreamDecoder.feed ⟨.ParsingOp 0 (-1), st, cache, buf, some N, cp⟩ b =
      (⟨.ParsingOp b 1, st, cache, buf.set 0 (wsub (b &&& 63) 32), some N, cp⟩,
        .ok (.NeedMore 1)) := by
  unfold StreamDecoder.feed
  dsimp only
  have hz : ¬(b &&& 192 = 0) := by rw [hluma]; decide
  have hd : ¬(b &&& 192 = 64) := by rw [hluma]; decide
  simp [finishFeed_eq, hcp, hb254, hb255, hz, hd, hluma]

/-- Feeding the second LUMA byte completes the opcode; the stored green delta
is read back from the scratch buffer. -/
theorem feed_luma1 (st : Pixel) (cache : List Pixel) (buf : List Nat) (N cp o b2 : Nat)
    (ho254 : ¬o = 254) (ho255 : ¬o = 255) (holuma : o &&& 192 = 128) :
    StreamDecoder.feed ⟨.ParsingOp o 1, st, cache, buf, some N, cp⟩ b2 =
      (⟨if N = cp + 1 then .Finished else .ParsingOp 0 (-1),
         ⟨wadd st.r (wadd (wsub (buf.getD 0 0) 8) (b2 >>> 4 &&& 15)),
          wadd st.g (buf.getD 0 0),
          wadd st.b (wadd (wsub (buf.getD 0 0) 8) (b2 &&& 15)), st.a⟩,
         cache.set (hash_pixel ⟨wadd st.r (wadd (wsub (buf.getD 0 0) 8) (b2 >>> 4 &&& 15)),
             wadd st.g (buf.getD 0 0),
             wadd st.b (wadd (wsub (buf.getD 0 0) 8) (b2 &&& 15)), st.a⟩ % 64)
           ⟨wadd st.r (wadd (wsub (buf.getD 0 0) 8) (b2 >>> 4 &&& 15)),
            wadd st.g (buf.getD 0 0),
            wadd st.b (wadd (wsub (buf.getD 0 0) 8) (b2 &&& 15)), st.a⟩,
         buf, some N, cp + 1⟩,
        .ok (.Pixels 1 ⟨wadd st.r (wadd (wsub (buf.getD 0 0) 8) (b2 >>> 4 &&& 15)),
          wadd st.g (buf.getD 0 0),
          wadd st.b (wadd (wsub (buf.getD 0 0) 8) (b2 &&& 15)), st.a⟩)) := by
  unfold StreamDecoder.feed
  dsimp only
  simp [finishFeed_eq, ho254, ho255, holuma]

/-- Feeding a RUN opcode byte: the run-length pixels are all emitted at once
and the cache is untouched. -/
theorem feed_sen_run (st : Pixel) (cache : List Pixel) (buf : List Nat) (N cp b : Nat)
    (hb254 : ¬b = 254) (hb255 : ¬b = 255) (hrun : b &&& 192 = 192) :
    StreamDecoder.feed ⟨.ParsingOp 0 (-1), st, cache, buf, some N, cp⟩ b =
      (⟨if N = cp + ((b &&& 63) + 1) then .Finished else .ParsingOp 0 (-1), st, cache, buf,
         some N, cp + ((b &&& 63) + 1)⟩,
        .ok (.Pixels ((b &&& 63) + 1) st)) := by
  unfold StreamDecoder.feed
  dsimp only
  have hz : ¬(b &&& 192 = 0) := by rw [hrun]; decide
  have hd : ¬(b &&& 192 = 64) := by rw [hrun]; decide
  have hl : ¬(b &&& 192 = 128) := by rw [hrun]; decide
  simp [finishFeed_eq, hb254, hb255, hz, hd, hl, hrun]

set_option maxHeartbeats 4000000 in
/-- The streaming decoder refines the strict reference semantics: from the
no-op-in-flight state with the strict cache and `n` pixels to go, feeding the
bytes one at a time produces exactly the strict decode's pixels. -/
theorem feed_refines_strict : ∀ (f n N : Nat) (st : Pixel) (cache : List Pixel)
    (buf : List Nat) (data : List Nat) (pix : List Pixel),
    1 ≤ n → n ≤ N → n ≤ f → buf.length = 4 →
    decodeOpsF f st cache data n = some pix →
    (feedPixels ⟨.ParsingOp 0 (-1), st, cache, buf, some N, N - n⟩ data).2 = .ok pix := by
  intro f
  induction f with
  | zero => intro n N st cache buf data pix h1 h2 h3 _ _; omega
  | succ f ih =>
    intro n N st cache buf data pix h1 h2 h3 hbuf h
    cases n with
    | zero => omega
    | succ m =>
      have hne : ¬N = N - (m + 1) := by omega
      rw [decodeOpsF.eq_def] at h
      dsimp only at h
      cases data with
      | nil => exact Option.noConfusion h
      | cons b rest =>
        dsimp only at h
        by_cases hb254 : b = 254
        · -- QOI_OP_RGB
          subst hb254
          rw [if_pos rfl] at h
          cases rest with
          | nil => exact Option.noConfusion h
          | cons r rest1 =>
            cases rest1 with
            | nil => exact Option.noConfusion h
            | cons g rest2 =>
              cases rest2 with
              | nil => exact Option.noConfusion h
              | cons bb rest3 =>
                dsimp only at h
                cases hrec : decodeOpsF f ⟨r, g, bb, st.a⟩
                    (cache.set (hash_pixel ⟨r, g, bb, st.a⟩ % 64) ⟨r, g, bb, st.a⟩)
                    rest3 m with
                | none => rw [hrec] at h; exact Option.noConfusion h
                | some ps =>
                  rw [hrec] at h
                  dsimp only at h
                  injection h with hpix
                  subst hpix
                  rw [feedPixels_cons, feed_sen_rgb st cache buf N _ hne]
                  dsimp only
                  rw [feedPixels_cons, feed_rgb0 _ cache buf N _ r hne]
                  dsimp only
                  rw [feedPixels_cons, feed_rgb1 _ cache buf N _ g hne]
                  dsimp only
                  rw [feedPixels_cons, feed_rgb2 _ cache buf N _ bb]
                  dsimp only
                  by_cases hm : m = 0
                  · subst hm
                    rw [if_pos (by omega)]
                    rw [decodeOpsF_zero] at hrec
                    injection hrec with hps
                    subst hps
                    rw [feedPixels_finished _ rest3 rfl]
                    simp
                  · rw [if_neg (by omega)]
                    have hcur : N - (m + 1) + 1 = N - m := by omega
                    rw [hcur]
                    have hih := ih m N ⟨r, g, bb, st.a⟩
                      (cache.set (hash_pixel ⟨r, g, bb, st.a⟩ % 64) ⟨r, g, bb, st.a⟩)
                      buf rest3 ps (by omega) (by omega) (by omega) hbuf hrec
                    rcases hfp : feedPixels ⟨.ParsingOp 0 (-1), ⟨r, g, bb, st.a⟩,
                        cache.set (hash_pixel ⟨r, g, bb, st.a⟩ % 64) ⟨r, g, bb, st.a⟩,
                        buf, some N, N - m⟩ rest3 with ⟨dd, res⟩
                    rw [hfp] at hih
                    dsimp only at hih
                    subst hih
                    simp
        · rw [if_neg hb254] at h
          by_cases hb255 : b = 255
          · -- QOI_OP_RGBA
            subst hb255
            rw [if_pos rfl] at h
            cases rest with
            | nil => exact Option.noConfusion h
            | cons r rest1 =>
              cases rest1 with
              | nil => exact Option.noConfusion h
              | cons g rest2 =>
                cases rest2 with
                | nil => exact Option.noConfusion h
                | cons bb rest3 =>
                  cases rest3 with
                  | nil => exact Option.noConfusion h
                  | cons a rest4 =>
                    dsimp only at h
                    cases hrec : decodeOpsF f ⟨r, g, bb, a⟩
                        (cache.set (hash_pixel ⟨r, g, bb, a⟩ % 64) ⟨r, g, bb, a⟩)
                        rest4 m with
                    | none => rw [hrec] at h; exact Option.noConfusion h
                    | some ps =>
                      rw [hrec] at h
                      dsimp only at h
                      injection h with hpix
                      subst hpix
                      rw [feedPixels_cons, feed_sen_rgba st cache buf N _ hne]
                      dsimp only
                      rw [feedPixels_cons, feed_rgba0 _ cache buf N _ r hne]
                      dsimp only
                      rw [feedPixels_cons, feed_rgba1 _ cache buf N _ g hne]
                      dsimp only
                      rw [feedPixels_cons, feed_rgba2 _ cache buf N _ bb hne]
                      dsimp only
                      rw [feedPixels_cons, feed_rgba3 _ cache buf N _ a]
                      dsimp only
                      by_cases hm : m = 0
                      · subst hm
                        rw [if_pos (by omega)]
                        rw [decodeOpsF_zero] at hrec
                        injection hrec with hps
                        subst hps
                        rw [feedPixels_finished _ rest4 rfl]
                        simp
                      · rw [if_neg (by omega)]
                        have hcur : N - (m + 1) + 1 = N - m := by omega
                        rw [hcur]
                        have hih := ih m N ⟨r, g, bb, a⟩
                          (cache.set (hash_pixel ⟨r, g, bb, a⟩ % 64) ⟨r, g, bb, a⟩)
                          buf rest4 ps (by omega) (by omega) (by omega) hbuf hrec
                        rcases hfp : feedPixels ⟨.ParsingOp 0 (-1), ⟨r, g, bb, a⟩,
                            cache.set (hash_pixel ⟨r, g, bb, a⟩ % 64) ⟨r, g, bb, a⟩,
                            buf, some N, N - m⟩ rest4 with ⟨dd, res⟩
                        rw [hfp] at hih
                        dsimp only at hih
                        subst hih
                        simp
          · rw [if_neg hb255] at h
            by_cases hidx : b &&& 192 = 0
            · -- QOI_OP_INDEX
              rw [if_pos hidx] at h
              by_cases hguard : hash_pixel (cache.getD b Pixel.default) % 64 = b
              · rw [if_pos hguard] at h
                cases hrec : decodeOpsF f (cache.getD b Pixel.default) cache rest m with
                | none => rw [hrec] at h; exact Option.noConfusion h
                | some ps =>
                  rw [hrec] at h
                  dsimp only at h
                  injection h with hpix
                  subst hpix
                  rw [feedPixels_cons, feed_sen_index st cache buf N _ b hb254 hb255 hidx]
                  dsimp only
                  by_cases hm : m = 0
                  · subst hm
                    rw [if_pos (by omega)]
                    rw [decodeOpsF_zero] at hrec
                    injection hrec with hps
                    subst hps
                    rw [feedPixels_finished _ rest rfl]
                    simp
                  · rw [if_neg (by omega)]
                    have hcur : N - (m + 1) + 1 = N - m := by omega
                    rw [hcur]
                    have hih := ih m N (cache.getD b Pixel.default) cache buf rest ps
                      (by omega) (by omega) (by omega) hbuf hrec
                    rcases hfp : feedPixels ⟨.ParsingOp 0 (-1), cache.getD b Pixel.default,
                        cache, buf, some N, N - m⟩ rest with ⟨dd, res⟩
                    rw [hfp] at hih
                    dsimp only at hih
                    subst hih
                    simp
              · rw [if_neg hguard] at h
                exact Option.noConfusion h
            · rw [if_neg hidx] at h
              by_cases hdiff : b &&& 192 = 64
              · -- QOI_OP_DIFF
                rw [if_pos hdiff] at h
                cases hrec : decodeOpsF f
                    ⟨wadd st.r (wsub (b >>> 4 &&& 3) 2), wadd st.g (wsub (b >>> 2 &&& 3) 2),
                     wadd st.b (wsub (b &&& 3) 2), st.a⟩
                    (cache.set (hash_pixel ⟨wadd st.r (wsub (b >>> 4 &&& 3) 2),
                        wadd st.g (wsub (b >>> 2 &&& 3) 2),
                        wadd st.b (wsub (b &&& 3) 2), st.a⟩ % 64)
                      ⟨wadd st.r (wsub (b >>> 4 &&& 3) 2), wadd st.g (wsub (b >>> 2 &&& 3) 2),
                       wadd st.b (wsub (b &&& 3) 2), st.a⟩) rest m with
                | none => rw [hrec] at h; exact Option.noConfusion h
                | some ps =>
                  rw [hrec] at h
                  dsimp only at h
                  injection h with hpix
                  subst hpix
                  rw [feedPixels_cons, feed_sen_diff st cache buf N _ b hb254 hb255 hdiff]
                  dsimp only
                  by_cases hm : m = 0
                  · subst hm
                    rw [if_pos (by omega)]
                    rw [decodeOpsF_zero] at hrec
                    injection hrec with hps
                    subst hps
                    rw [feedPixels_finished _ rest rfl]
                    simp
                  · rw [if_neg (by omega)]
                    have hcur : N - (m + 1) + 1 = N - m := by omega
                    rw [hcur]
                    have hih := ih m N
                      ⟨wadd st.r (wsub (b >>> 4 &&& 3) 2), wadd st.g (wsub (b >>> 2 &&& 3) 2),
                       wadd st.b (wsub (b &&& 3) 2), st.a⟩
                      (cache.set (hash_pixel ⟨wadd st.r (wsub (b >>> 4 &&& 3) 2),
                          wadd st.g (wsub (b >>> 2 &&& 3) 2),
                          wadd st.b (wsub (b &&& 3) 2), st.a⟩ % 64)
                        ⟨wadd st.r (wsub (b >>> 4 &&& 3) 2), wadd st.g (wsub (b >>> 2 &&& 3) 2),
                         wadd st.b (wsub (b &&& 3) 2), st.a⟩)
                      buf rest ps (by omega) (by omega) (by omega) hbuf hrec
                    rcases hfp : feedPixels ⟨.ParsingOp 0 (-1),
                        ⟨wadd st.r (wsub (b >>> 4 &&& 3) 2), wadd st.g (wsub (b >>> 2 &&& 3) 2),
                         wadd st.b (wsub (b &&& 3) 2), st.a⟩,
                        cache.set (hash_pixel ⟨wadd st.r (wsub (b >>> 4 &&& 3) 2),
                            wadd st.g (wsub (b >>> 2 &&& 3) 2),
                            wadd st.b (wsub (b &&& 3) 2), st.a⟩ % 64)
                          ⟨wadd st.r (wsub (b >>> 4 &&& 3) 2), wadd st.g (wsub (b >>> 2 &&& 3) 2),
                           wadd st.b (wsub (b &&& 3) 2), st.a⟩,
                        buf, some N, N - m⟩ rest with ⟨dd, res⟩
                    rw [hfp] at hih
                    dsimp only at hih
                    subst hih
                    simp
              · rw [if_neg hdiff] at h
                by_cases hluma : b &&& 192 = 128
                · -- QOI_OP_LUMA
                  rw [if_pos hluma] at h
                  cases rest with
                  | nil => exact Option.noConfusion h
                  | cons b2 rest2 =>
                    dsimp only at h
                    cases hrec : decodeOpsF f
                        ⟨wadd st.r (wadd (wsub (wsub (b &&& 63) 32) 8) (b2 >>> 4 &&& 15)),
                         wadd st.g (wsub (b &&& 63) 32),
                         wadd st.b (wadd (wsub (wsub (b &&& 63) 32) 8) (b2 &&& 15)), st.a⟩
                        (cache.set (hash_pixel
                            ⟨wadd st.r (wadd (wsub (wsub (b &&& 63) 32) 8) (b2 >>> 4 &&& 15)),
                             wadd st.g (wsub (b &&& 63) 32),
                             wadd st.b (wadd (wsub (wsub (b &&& 63) 32) 8) (b2 &&& 15)),
                             st.a⟩ % 64)
                          ⟨wadd st.r (wadd (wsub (wsub (b &&& 63) 32) 8) (b2 >>> 4 &&& 15)),
                           wadd st.g (wsub (b &&& 63) 32),
                           wadd st.b (wadd (wsub (wsub (b &&& 63) 32) 8) (b2 &&& 15)),
                           st.a⟩) rest2 m with
                    | none => rw [hrec] at h; exact Option.noConfusion h
                    | some ps =>
                      rw [hrec] at h
                      dsimp only at h
                      injection h with hpix
                      subst hpix
                      rw [feedPixels_cons, feed_sen_luma st cache buf N _ b hne hb254 hb255 hluma]
                      dsimp only
                      rw [feedPixels_cons,
                        feed_luma1 st cache (buf.set 0 (wsub (b &&& 63) 32)) N _ b b2
                          hb254 hb255 hluma]
                      rw [getD_set_self buf 0 (wsub (b &&& 63) 32) 0 (by rw [hbuf]; norm_num)]
                      dsimp only
                      by_cases hm : m = 0
                      · subst hm
                        rw [if_pos (by omega)]
                        rw [decodeOpsF_zero] at hrec
                        injection hrec with hps
                        subst hps
                        rw [feedPixels_finished _ rest2 rfl]
                        simp
                      · rw [if_neg (by omega)]
                        have hcur : N - (m + 1) + 1 = N - m := by omega
                        rw [hcur]
                        have hih := ih m N
                          ⟨wadd st.r (wadd (wsub (wsub (b &&& 63) 32) 8) (b2 >>> 4 &&& 15)),
                           wadd st.g (wsub (b &&& 63) 32),
                           wadd st.b (wadd (wsub (wsub (b &&& 63) 32) 8) (b2 &&& 15)), st.a⟩
                          (cache.set (hash_pixel
                              ⟨wadd st.r (wadd (wsub (wsub (b &&& 63) 32) 8) (b2 >>> 4 &&& 15)),
                               wadd st.g (wsub (b &&& 63) 32),
                               wadd st.b (wadd (wsub (wsub (b &&& 63) 32) 8) (b2 &&& 15)),
                               st.a⟩ % 64)
                            ⟨wadd st.r (wadd (wsub (wsub (b &&& 63) 32) 8) (b2 >>> 4 &&& 15)),
                             wadd st.g (wsub (b &&& 63) 32),
                             wadd st.b (wadd (wsub (wsub (b &&& 63) 32) 8) (b2 &&& 15)),
                             st.a⟩)
                          (buf.set 0 (wsub (b &&& 63) 32)) rest2 ps
                          (by omega) (by omega) (by omega) (by simp [hbuf]) hrec
                        rcases hfp : feedPixels ⟨.ParsingOp 0 (-1),
                            ⟨wadd st.r (wadd (wsub (wsub (b &&& 63) 32) 8) (b2 >>> 4 &&& 15)),
                             wadd st.g (wsub (b &&& 63) 32),
                             wadd st.b (wadd (wsub (wsub (b &&& 63) 32) 8) (b2 &&& 15)), st.a⟩,
                            cache.set (hash_pixel
                                ⟨wadd st.r (wadd (wsub (wsub (b &&& 63) 32) 8) (b2 >>> 4 &&& 15)),
                                 wadd st.g (wsub (b &&& 63) 32),
                                 wadd st.b (wadd (wsub (wsub (b &&& 63) 32) 8) (b2 &&& 15)),
                                 st.a⟩ % 64)
                              ⟨wadd st.r (wadd (wsub (wsub (b &&& 63) 32) 8) (b2 >>> 4 &&& 15)),
                               wadd st.g (wsub (b &&& 63) 32),
                               wadd st.b (wadd (wsub (wsub (b &&& 63) 32) 8) (b2 &&& 15)),
                               st.a⟩,
                            buf.set 0 (wsub (b &&& 63) 32), some N, N - m⟩ rest2 with ⟨dd, res⟩
                        rw [hfp] at hih
                        dsimp only at hih
                        subst hih
                        simp
                · rw [if_neg hluma] at h
                  by_cases hrun : b &&& 192 = 192
                  · -- QOI_OP_RUN
                    rw [if_pos hrun] at h
                    by_cases hk : (b &&& 63) + 1 ≤ m + 1
                    · rw [if_pos hk] at h
                      cases hrec : decodeOpsF f st cache rest (m + 1 - ((b &&& 63) + 1)) with
                      | none => rw [hrec] at h; exact Option.noConfusion h
                      | some ps =>
                        rw [hrec] at h
                        dsimp only at h
                        injection h with hpix
                        subst hpix
                        rw [feedPixels_cons, feed_sen_run st cache buf N _ b hb254 hb255 hrun]
                        dsimp only
                        by_cases hkm : (b &&& 63) + 1 = m + 1
                        · rw [if_pos (by omega)]
                          have h0 : m + 1 - ((b &&& 63) + 1) = 0 := by omega
                          rw [h0, decodeOpsF_zero] at hrec
                          injection hrec with hps
                          subst hps
                          rw [feedPixels_finished _ rest rfl]
                          try simp
                        · rw [if_neg (by omega)]
                          have hcur : N - (m + 1) + ((b &&& 63) + 1) =
                              N - (m + 1 - ((b &&& 63) + 1)) := by omega
                          rw [hcur]
                          have hih := ih (m + 1 - ((b &&& 63) + 1)) N st cache buf rest ps
                            (by omega) (by omega) (by omega) hbuf hrec
                          rcases hfp : feedPixels ⟨.ParsingOp 0 (-1), st, cache, buf, some N,
                              N - (m + 1 - ((b &&& 63) + 1))⟩ rest with ⟨dd, res⟩
                          rw [hfp] at hih
                          dsimp only at hih
                          subst hih
                          simp
                    · rw [if_neg hk] at h
                      exact Option.noConfusion h
                  · rw [if_neg hrun] at h
                    exact Option.noConfusion h

/-- Feeding the first magic byte from the fresh `NotStarted` state. -/
theorem feed_hdr0 (p : Pixel) (cache : List Pixel) (buf : List Nat) :
    StreamDecoder.feed ⟨.NotStarted, p, cache, buf, none, 0⟩ 113 =
      (⟨.ParsingHeader 1, p, cache, buf, none, 0⟩, .ok (.NeedMore 3)) := rfl

/-- Second magic byte. -/
theorem feed_hdr1 (p : Pixel) (cache : List Pixel) (buf : List Nat) :
    StreamDecoder.feed ⟨.ParsingHeader 1, p, cache, buf, none, 0⟩ 111 =
      (⟨.ParsingHeader 2, p, cache, buf, none, 0⟩, .ok (.NeedMore 2)) := rfl

/-- Third magic byte. -/
theorem feed_hdr2 (p : Pixel) (cache : List Pixel) (buf : List Nat) :
    StreamDecoder.feed ⟨.ParsingHeader 2, p, cache, buf, none, 0⟩ 105 =
      (⟨.ParsingHeader 3, p, cache, buf, none, 0⟩, .ok (.NeedMore 1)) := rfl

/-- Fourth magic byte. -/
theorem feed_hdr3 (p : Pixel) (cache : List Pixel) (buf : List Nat) :
    StreamDecoder.feed ⟨.ParsingHeader 3, p, cache, buf, none, 0⟩ 102 =
      (⟨.ParsingHeader 4, p, cache, buf, none, 0⟩, .ok (.NeedMore 4)) := rfl

/-- First width byte goes into buffer slot 0. -/
theorem feed_hdr4 (p : Pixel) (cache : List Pixel) (x0 x1 x2 x3 b : Nat) :
    StreamDecoder.feed ⟨.ParsingHeader 4, p, cache, [x0, x1, x2, x3], none, 0⟩ b =
      (⟨.ParsingHeader 5, p, cache, [b, x1, x2, x3], none, 0⟩, .ok (.NeedMore 3)) := rfl

/-- Second width byte goes into buffer slot 1. -/
theorem feed_hdr5 (p : Pixel) (cache : List Pixel) (x0 x1 x2 x3 b : Nat) :
    StreamDecoder.feed ⟨.ParsingHeader 5, p, cache, [x0, x1, x2, x3], none, 0⟩ b =
      (⟨.ParsingHeader 6, p, cache, [x0, b, x2, x3], none, 0⟩, .ok (.NeedMore 2)) := rfl

/-- Third width byte goes into buffer slot 2. -/
theorem feed_hdr6 (p : Pixel) (cache : List Pixel) (x0 x1 x2 x3 b : Nat) :
    StreamDecoder.feed ⟨.ParsingHeader 6, p, cache, [x0, x1, x2, x3], none, 0⟩ b =
      (⟨.ParsingHeader 7, p, cache, [x0, x1, b, x3], none, 0⟩, .ok (.NeedMore 1)) := rfl

/-- Fourth width byte: width assembled big-endian and provisionally stored as
the pixel target; for a nonzero width decoding proceeds to the height bytes. -/
theorem feed_hdr7 (p : Pixel) (cache : List Pixel) (x0 x1 x2 x3 b : Nat)
    (hv : ¬u32be x0 x1 x2 b = 0) :
    StreamDecoder.feed ⟨.ParsingHeader 7, p, cache, [x0, x1, x2, x3], none, 0⟩ b =
      (⟨.ParsingHeader 8, p, cache, [x0, x1, x2, x3], some (u32be x0 x1 x2 b), 0⟩,
        .ok (.ImageWidthParsed (u32be x0 x1 x2 b))) := by
  unfold StreamDecoder.feed
  dsimp only
  simp [finishFeed_eq, hv]

/-- Fourth width byte when the width is zero: the end-of-image check fires
immediately and the decoder transitions to `Finished`. -/
theorem feed_hdr7_zero (p : Pixel) (cache : List Pixel) (x0 x1 x2 x3 b : Nat)
    (hv : u32be x0 x1 x2 b = 0) :
    StreamDecoder.feed ⟨.ParsingHeader 7, p, cache, [x0, x1, x2, x3], none, 0⟩ b =
      (⟨.Finished, p, cache, [x0, x1, x2, x3], some (u32be x0 x1 x2 b), 0⟩,
        .ok (.ImageWidthParsed (u32be x0 x1 x2 b))) := by
  unfold StreamDecoder.feed
  dsimp only
  simp [finishFeed_eq, hv]

/-- First height byte goes into buffer slot 0. -/
theorem feed_hdr8 (p : Pixel) (cache : List Pixel) (x0 x1 x2 x3 b N : Nat)
    (hN : ¬N = 0) :
    StreamDecoder.feed ⟨.ParsingHeader 8, p, cache, [x0, x1, x2, x3], some N, 0⟩ b =
      (⟨.ParsingHeader 9, p, cache, [b, x1, x2, x3], some N, 0⟩, .ok (.NeedMore 3)) := by
  unfold StreamDecoder.feed
  dsimp only
  simp [finishFeed_eq, hN]

/-- Second height byte goes into buffer slot 1. -/
theorem feed_hdr9 (p : Pixel) (cache : List Pixel) (x0 x1 x2 x3 b N : Nat)
    (hN : ¬N = 0) :
    StreamDecoder.feed ⟨.ParsingHeader 9, p, cache, [x0, x1, x2, x3], some N, 0⟩ b =
      (⟨.ParsingHeader 10, p, cache, [x0, b, x2, x3], some N, 0⟩, .ok (.NeedMore 2)) := by
  unfold StreamDecoder.feed
  dsimp only
  simp [finishFeed_eq, hN]

/-- Third height byte goes into buffer slot 2. -/
theorem feed_hdr10 (p : Pixel) (cache : List Pixel) (x0 x1 x2 x3 b N : Nat)
    (hN : ¬N = 0) :
    StreamDecoder.feed ⟨.ParsingHeader 10, p, cache, [x0, x1, x2, x3], some N, 0⟩ b =
      (⟨.ParsingHeader 11, p, cache, [x0, x1, b, x3], some N, 0⟩, .ok (.NeedMore 1)) := by
  unfold StreamDecoder.feed
  dsimp only
  simp [finishFeed_eq, hN]

/-- Fourth height byte: height assembled big-endian, pixel target becomes
width times height; for a nonzero product decoding proceeds. -/
theorem feed_hdr11 (p : Pixel) (cache : List Pixel) (x0 x1 x2 x3 b N : Nat)
    (hv : ¬N * u32be x0 x1 x2 b = 0) :
    StreamDecoder.feed ⟨.ParsingHeader 11, p, cache, [x0, x1, x2, x3], some N, 0⟩ b =
      (⟨.ParsingHeader 12, p, cache, [x0, x1, x2, x3], some (N * u32be x0 x1 x2 b), 0⟩,
        .ok (.ImageHeightParsed (u32be x0 x1 x2 b))) := by
  unfold StreamDecoder.feed
  dsimp only
  simp [finishFeed_eq, hv]

/-- Fourth height byte when width times height is zero: the decoder
transitions to `Finished` right away. -/
theorem feed_hdr11_zero (p : Pixel) (cache : List Pixel) (x0 x1 x2 x3 b N : Nat)
    (hv : N * u32be x0 x1 x2 b = 0) :
    StreamDecoder.feed ⟨.ParsingHeader 11, p, cache, [x0, x1, x2, x3], some N, 0⟩ b =
      (⟨.Finished, p, cache, [x0, x1, x2, x3], some (N * u32be x0 x1 x2 b), 0⟩,
        .ok (.ImageHeightParsed (u32be x0 x1 x2 b))) := by
  unfold StreamDecoder.feed
  dsimp only
  simp [finishFeed_eq, hv]

/-- Channels byte: accepted iff `Channels::try_from` succeeds. -/
theorem feed_hdr12 (p : Pixel) (cache : List Pixel) (buf : List Nat) (b N : Nat)
    (c : Channels) (hch : Channels.tryFrom b = .ok c) (hN : ¬N = 0) :
    StreamDecoder.feed ⟨.ParsingHeader 12, p, cache, buf, some N, 0⟩ b =
      (⟨.ParsingHeader 13, p, cache, buf, some N, 0⟩, .ok (.ImageChannelParsed c)) := by
  unfold StreamDecoder.feed
  dsimp only
  rw [hch]
  simp [finishFeed_eq, hN]

/-- Colorspace byte: accepted iff `Colorspace::try_from` succeeds; the machine
enters the opcode-parsing state. -/
theorem feed_hdr13 (p : Pixel) (cache : List Pixel) (buf : List Nat) (b N : Nat)
    (s : Colorspace) (hcs : Colorspace.tryFrom b = .ok s) (hN : ¬N = 0) :
    StreamDecoder.feed ⟨.ParsingHeader 13, p, cache, buf, some N, 0⟩ b =
      (⟨.ParsingOp 0 (-1), p, cache, buf, some N, 0⟩, .ok (.ImageColorspaceParsed s)) := by
  unfold StreamDecoder.feed
  dsimp only
  rw [hcs]
  simp [finishFeed_eq, hN]

set_option maxHeartbeats 1600000 in
/-- Feeding a well-formed 14-byte header with nonzero pixel target from a
reset-state decoder: no pixels are emitted and the decoder reaches the
opcode-parsing state with the strict initial cache, the target set to
width times height, and zero pixels counted. -/
theorem feed_header (p : Pixel) (cache : List Pixel)
    (w0 w1 w2 w3 h0 h1 h2 h3 ch cs : Nat) (c : Channels) (s : Colorspace)
    (rest : List Nat)
    (hch : Channels.tryFrom ch = .ok c) (hcs : Colorspace.tryFrom cs = .ok s)
    (hW : ¬u32be w0 w1 w2 w3 = 0)
    (hWH : ¬u32be w0 w1 w2 w3 * u32be h0 h1 h2 h3 = 0) :
    (feedPixels ⟨.NotStarted, p, cache, [0, 0, 0, 0], none, 0⟩
        ([113, 111, 105, 102, w0, w1, w2, w3, h0, h1, h2, h3, ch, cs] ++ rest)).2 =
    (feedPixels ⟨.ParsingOp 0 (-1), p, cache, [h0, h1, h2, 0],
        some (u32be w0 w1 w2 w3 * u32be h0 h1 h2 h3), 0⟩ rest).2 := by
  simp only [List.cons_append, List.nil_append]
  rw [feedPixels_cons, feed_hdr0]
  dsimp only
  rw [feedPixels_cons, feed_hdr1]
  dsimp only
  rw [feedPixels_cons, feed_hdr2]
  dsimp only
  rw [feedPixels_cons, feed_hdr3]
  dsimp only
  rw [feedPixels_cons, feed_hdr4]
  dsimp only
  rw [feedPixels_cons, feed_hdr5]
  dsimp only
  rw [feedPixels_cons, feed_hdr6]
  dsimp only
  rw [feedPixels_cons, feed_hdr7 p cache w0 w1 w2 0 w3 hW]
  dsimp only
  rw [feedPixels_cons, feed_hdr8 p cache w0 w1 w2 0 h0 _ hW]
  dsimp only
  rw [feedPixels_cons, feed_hdr9 p cache h0 w1 w2 0 h1 _ hW]
  dsimp only
  rw [feedPixels_cons, feed_hdr10 p cache h0 h1 w2 0 h2 _ hW]
  dsimp only
  rw [feedPixels_cons, feed_hdr11 p cache h0 h1 h2 0 h3 _ hWH]
  dsimp only
  rw [feedPixels_cons, feed_hdr12 p cache [h0, h1, h2, 0] ch _ c hch hWH]
  dsimp only
  rw [feedPixels_cons, feed_hdr13 p cache [h0, h1, h2, 0] cs _ s hcs hWH]
  dsimp only
  rcases hfp : feedPixels ⟨.ParsingOp 0 (-1), p, cache, [h0, h1, h2, 0],
      some (u32be w0 w1 w2 w3 * u32be h0 h1 h2 h3), 0⟩ rest with ⟨dd, res⟩
  cases res <;> simp

/-- Feeding a header that declares width zero: the decoder finishes at the
eighth byte and every later byte is inert, so no pixels are ever produced. -/
theorem feed_header_wzero (p : Pixel) (cache : List Pixel)
    (w0 w1 w2 w3 : Nat) (tail : List Nat)
    (hW : u32be w0 w1 w2 w3 = 0) :
    (feedPixels ⟨.NotStarted, p, cache, [0, 0, 0, 0], none, 0⟩
        ([113, 111, 105, 102, w0, w1, w2, w3] ++ tail)).2 = .ok [] := by
  simp only [List.cons_append, List.nil_append]
  rw [feedPixels_cons, feed_hdr0]
  dsimp only
  rw [feedPixels_cons, feed_hdr1]
  dsimp only
  rw [feedPixels_cons, feed_hdr2]
  dsimp only
  rw [feedPixels_cons, feed_hdr3]
  dsimp only
  rw [feedPixels_cons, feed_hdr4]
  dsimp only
  rw [feedPixels_cons, feed_hdr5]
  dsimp only
  rw [feedPixels_cons, feed_hdr6]
  dsimp only
  rw [feedPixels_cons, feed_hdr7_zero p cache w0 w1 w2 0 w3 hW]
  dsimp only
  rw [feedPixels_finished _ tail rfl]
  simp

set_option maxHeartbeats 800000 in
/-- Feeding a header with nonzero width but width times height zero: the
decoder finishes at the twelfth byte and no pixels are ever produced. -/
theorem feed_header_hzero (p : Pixel) (cache : List Pixel)
    (w0 w1 w2 w3 h0 h1 h2 h3 : Nat) (tail : List Nat)
    (hW : ¬u32be w0 w1 w2 w3 = 0)
    (hWH : u32be w0 w1 w2 w3 * u32be h0 h1 h2 h3 = 0) :
    (feedPixels ⟨.NotStarted, p, cache, [0, 0, 0, 0], none, 0⟩
        ([113, 111, 105, 102, w0, w1, w2, w3, h0, h1, h2, h3] ++ tail)).2 = .ok [] := by
  simp only [List.cons_append, List.nil_append]
  rw [feedPixels_cons, feed_hdr0]
  dsimp only
  rw [feedPixels_cons, feed_hdr1]
  dsimp only
  rw [feedPixels_cons, feed_hdr2]
  dsimp only
  rw [feedPixels_cons, feed_hdr3]
  dsimp only
  rw [feedPixels_cons, feed_hdr4]
  dsimp only
  rw [feedPixels_cons, feed_hdr5]
  dsimp only
  rw [feedPixels_cons, feed_hdr6]
  dsimp only
  rw [feedPixels_cons, feed_hdr7 p cache w0 w1 w2 0 w3 hW]
  dsimp only
  rw [feedPixels_cons, feed_hdr8 p cache w0 w1 w2 0 h0 _ hW]
  dsimp only
  rw [feedPixels_cons, feed_hdr9 p cache h0 w1 w2 0 h1 _ hW]
  dsimp only
  rw [feedPixels_cons, feed_hdr10 p cache h0 h1 w2 0 h2 _ hW]
  dsimp only
  rw [feedPixels_cons, feed_hdr11_zero p cache h0 h1 h2 0 h3 _ hWH]
  dsimp only
  rw [feedPixels_finished _ tail rfl]
  simp

/-- Inversion of a successful strict decode: the byte stream splits into a
well-formed 14-byte header followed by the opcode bytes, and the strict
opcode semantics produces the pixel list. -/
theorem strictDecode_inv (data : List Nat) (hdr : Header) (pix : List Pixel)
    (h : strictDecode data = some (hdr, pix)) :
    ∃ w0 w1 w2 w3 h0 h1 h2 h3 ch cs rest c s,
      data = [113, 111, 105, 102, w0, w1, w2, w3, h0, h1, h2, h3, ch, cs] ++ rest ∧
      Channels.tryFrom ch = .ok c ∧ Colorspace.tryFrom cs = .ok s ∧
      hdr = ⟨[113, 111, 105, 102], u32be w0 w1 w2 w3, u32be h0 h1 h2 h3, c, s⟩ ∧
      decodeOpsF (u32be w0 w1 w2 w3 * u32be h0 h1 h2 h3) ⟨0, 0, 0, 255⟩
        (List.replicate 64 Pixel.default) rest
        (u32be w0 w1 w2 w3 * u32be h0 h1 h2 h3) = some pix := by
  unfold strictDecode at h
  by_cases hlen : data.length < 14
  · rw [if_pos hlen] at h
    exact Option.noConfusion h
  · rw [if_neg hlen] at h
    cases data with
    | nil =>
      exfalso
      apply hlen
      simp only [List.length_cons, List.length_nil]
      omega
    | cons b0 t0 =>
    cases t0 with
    | nil =>
      exfalso
      apply hlen
      simp only [List.length_cons, List.length_nil]
      omega
    | cons b1 t1 =>
    cases t1 with
    | nil =>
      exfalso
      apply hlen
      simp only [List.length_cons, List.length_nil]
      omega
    | cons b2 t2 =>
    cases t2 with
    | nil =>
      exfalso
      apply hlen
      simp only [List.length_cons, List.length_nil]
      omega
    | cons b3 t3 =>
    cases t3 with
    | nil =>
      exfalso
      apply hlen
      simp only [List.length_cons, List.length_nil]
      omega
    | cons b4 t4 =>
    cases t4 with
    | nil =>
      exfalso
      apply hlen
      simp only [List.length_cons, List.length_nil]
      omega
    | cons b5 t5 =>
    cases t5 with
    | nil =>
      exfalso
      apply hlen
      simp only [List.length_cons, List.length_nil]
      omega
    | cons b6 t6 =>
    cases t6 with
    | nil =>
      exfalso
      apply hlen
      simp only [List.length_cons, List.length_nil]
      omega
    | cons b7 t7 =>
    cases t7 with
    | nil =>
      exfalso
      apply hlen
      simp only [List.length_cons, List.length_nil]
      omega
    | cons b8 t8 =>
    cases t8 with
    | nil =>
      exfalso
      apply hlen
      simp only [List.length_cons, List.length_nil]
      omega
    | cons b9 t9 =>
    cases t9 with
    | nil =>
      exfalso
      apply hlen
      simp only [List.length_cons, List.length_nil]
      omega
    | cons b10 t10 =>
    cases t10 with
    | nil =>
      exfalso
      apply hlen
      simp only [List.length_cons, List.length_nil]
      omega
    | cons b11 t11 =>
    cases t11 with
    | nil =>
      exfalso
      apply hlen
      simp only [List.length_cons, List.length_nil]
      omega
    | cons b12 t12 =>
    cases t12 with
    | nil =>
      exfalso
      apply hlen
      simp only [List.length_cons, List.length_nil]
      omega
    | cons b13 t13 =>
    have htake : (b0 :: b1 :: b2 :: b3 :: b4 :: b5 :: b6 :: b7 :: b8 :: b9 :: b10 :: b11 :: b12 :: b13 :: t13).take 14 = [b0, b1, b2, b3, b4, b5, b6, b7, b8, b9, b10, b11, b12, b13] := rfl
    have hdrop : (b0 :: b1 :: b2 :: b3 :: b4 :: b5 :: b6 :: b7 :: b8 :: b9 :: b10 :: b11 :: b12 :: b13 :: t13).drop 14 = t13 := rfl
    rw [htake, hdrop] at h
    unfold Header.from_bytes at h
    dsimp only at h
    by_cases hm : b0 = 113 ∧ b1 = 111 ∧ b2 = 105 ∧ b3 = 102
    · rw [if_pos hm] at h
      obtain ⟨hm0, hm1, hm2, hm3⟩ := hm
      subst hm0
      subst hm1
      subst hm2
      subst hm3
      cases hch : Channels.tryFrom b12 with
      | error e =>
        rw [hch] at h
        dsimp only at h
        exact Option.noConfusion h
      | ok c =>
        rw [hch] at h
        cases hcs : Colorspace.tryFrom b13 with
        | error e =>
          rw [hcs] at h
          dsimp only at h
          exact Option.noConfusion h
        | ok s =>
          rw [hcs] at h
          dsimp only at h
          cases hops : decodeOpsF (u32be b4 b5 b6 b7 * u32be b8 b9 b10 b11) ⟨0, 0, 0, 255⟩
              (List.replicate 64 Pixel.default) t13
              (u32be b4 b5 b6 b7 * u32be b8 b9 b10 b11) with
          | none =>
            rw [hops] at h
            exact Option.noConfusion h
          | some ps =>
            rw [hops] at h
            dsimp only at h
            injection h with h1
            injection h1 with h2 h3
            subst h3
            exact ⟨b4, b5, b6, b7, b8, b9, b10, b11, b12, b13, t13, c, s, rfl, hch, hcs,
              h2.symm, hops⟩
    · rw [if_neg hm] at h
      dsimp only at h
      exact Option.noConfusion h

/-- The strict starting pixel's hash slot of the all-default cache holds the
all-zero pixel, which does not hash back to that slot, so the simulation
invariant between last pixel and strict cache holds at the start. -/
theorem SlotOk_start : SlotOk ⟨0, 0, 0, 255⟩ (List.replicate 64 Pixel.default) := by
  unfold SlotOk
  right
  decide

/-- C1 (counterexample to the claim as stated): on the valid stream
`exStaleIndex` — RGBA(64,0,0,0), then INDEX 1 reading a stale slot, then
INDEX 0 — the chunked decoder returns the pixel (0,0,0,0) for the final
INDEX 0 while the streaming decoder returns (64,0,0,0): the cache write the
chunked decoder performs after every INDEX opcode has no counterpart in the
streaming decoder. -/
theorem c1_decoders_disagree_on_stale_index :
    Decoder.decode Decoder.new exStaleIndex =
      .ok (⟨[113, 111, 105, 102], 1, 3, .RGB, .sRGB⟩,
           [⟨64, 0, 0, 0⟩, ⟨0, 0, 0, 0⟩, ⟨0, 0, 0, 0⟩]) ∧
    (feedPixels (StreamDecoder.reset StreamDecoder.new) exStaleIndex).2 =
      .ok [⟨64, 0, 0, 0⟩, ⟨0, 0, 0, 0⟩, ⟨64, 0, 0, 0⟩] ∧
    ¬([⟨64, 0, 0, 0⟩, ⟨0, 0, 0, 0⟩, ⟨0, 0, 0, 0⟩] : List Pixel) =
      [⟨64, 0, 0, 0⟩, ⟨0, 0, 0, 0⟩, ⟨64, 0, 0, 0⟩] :=
  ⟨rfl, rfl, by decide⟩

set_option maxHeartbeats 1600000 in
/-- C1 (amended): on every stream accepted by the strict reference semantics
(well-formed header, self-consistent INDEX reads, no RUN overshoot) whose
u32 pixel count does not overflow, the chunked decoder — from any starting
state — and the streaming decoder — started from a reset — both produce
exactly the strict pixel sequence, hence agree with each other. -/
theorem c1_strict_decode_agreement (data : List Nat) (hdr : Header) (pix : List Pixel)
    (hstrict : strictDecode data = some (hdr, pix))
    (hlt : hdr.width * hdr.height < 4294967296) :
    (∀ d : Decoder, Decoder.decode d data = .ok (hdr, pix)) ∧
    (feedPixels (StreamDecoder.reset StreamDecoder.new) data).2 = .ok pix := by
  obtain ⟨w0, w1, w2, w3, h0, h1, h2, h3, ch, cs, rest, c, s, hdata, hch, hcs, hhdr, hops⟩ :=
    strictDecode_inv data hdr pix hstrict
  subst hdata
  subst hhdr
  dsimp only at hlt
  constructor
  · intro d
    unfold Decoder.decode
    have hlen : ¬([113, 111, 105, 102, w0, w1, w2, w3, h0, h1, h2, h3, ch, cs]
        ++ rest).length < 14 := by
      simp only [List.length_append, List.length_cons, List.length_nil]
      omega
    rw [if_neg hlen]
    have htake : ([113, 111, 105, 102, w0, w1, w2, w3, h0, h1, h2, h3, ch, cs]
        ++ rest).take 14 = [113, 111, 105, 102, w0, w1, w2, w3, h0, h1, h2, h3, ch, cs] := rfl
    rw [htake]
    unfold Header.from_bytes
    dsimp only
    rw [if_pos ⟨rfl, rfl, rfl, rfl⟩, hch, hcs]
    dsimp only
    have hdrop : ([113, 111, 105, 102, w0, w1, w2, w3, h0, h1, h2, h3, ch, cs]
        ++ rest).drop 14 = rest := rfl
    rw [hdrop]
    have hmod : u32be w0 w1 w2 w3 * u32be h0 h1 h2 h3 % 4294967296 =
        u32be w0 w1 w2 w3 * u32be h0 h1 h2 h3 := Nat.mod_eq_of_lt hlt
    rw [hmod]
    rw [decodeLoop_refines_strict (u32be w0 w1 w2 w3 * u32be h0 h1 h2 h3)
      (u32be w0 w1 w2 w3 * u32be h0 h1 h2 h3) ⟨0, 0, 0, 255⟩
      (List.replicate 64 Pixel.default) (List.replicate 64 Pixel.default) rest pix
      le_rfl (by simp) (by simp) (CacheRel_refl _) SlotOk_start hops]
  · have hsplit : StreamDecoder.reset StreamDecoder.new =
        ⟨.NotStarted, ⟨0, 0, 0, 255⟩, List.replicate 64 Pixel.default,
         [0, 0, 0, 0], none, 0⟩ := rfl
    rw [hsplit]
    by_cases hW : u32be w0 w1 w2 w3 = 0
    · have hWH : u32be w0 w1 w2 w3 * u32be h0 h1 h2 h3 = 0 := by
        rw [hW]
        exact Nat.zero_mul _
      rw [hWH, decodeOpsF_zero] at hops
      injection hops with hpix
      subst hpix
      have hri : [113, 111, 105, 102, w0, w1, w2, w3, h0, h1, h2, h3, ch, cs] ++ rest =
          [113, 111, 105, 102, w0, w1, w2, w3] ++ ([h0, h1, h2, h3, ch, cs] ++ rest) := by
        simp
      rw [hri]
      exact feed_header_wzero ⟨0, 0, 0, 255⟩ (List.replicate 64 Pixel.default)
        w0 w1 w2 w3 ([h0, h1, h2, h3, ch, cs] ++ rest) hW
    · by_cases hWH : u32be w0 w1 w2 w3 * u32be h0 h1 h2 h3 = 0
      · rw [hWH, decodeOpsF_zero] at hops
        injection hops with hpix
        subst hpix
        have hri : [113, 111, 105, 102, w0, w1, w2, w3, h0, h1, h2, h3, ch, cs] ++ rest =
            [113, 111, 105, 102, w0, w1, w2, w3, h0, h1, h2, h3] ++ ([ch, cs] ++ rest) := by
          simp
        rw [hri]
        exact feed_header_hzero ⟨0, 0, 0, 255⟩ (List.replicate 64 Pixel.default)
          w0 w1 w2 w3 h0 h1 h2 h3 ([ch, cs] ++ rest) hW hWH
      · rw [feed_header ⟨0, 0, 0, 255⟩ (List.replicate 64 Pixel.default)
          w0 w1 w2 w3 h0 h1 h2 h3 ch cs c s rest hch hcs hW hWH]
        have hfr := feed_refines_strict (u32be w0 w1 w2 w3 * u32be h0 h1 h2 h3)
          (u32be w0 w1 w2 w3 * u32be h0 h1 h2 h3)
          (u32be w0 w1 w2 w3 * u32be h0 h1 h2 h3) ⟨0, 0, 0, 255⟩
          (List.replicate 64 Pixel.default) [h0, h1, h2, 0] rest pix
          (by omega) le_rfl le_rfl rfl hops
        rw [Nat.sub_self] at hfr
        exact hfr

/-- Witness for the amended C1 theorem on the concrete 1 by 1 RGBA stream. -/
theorem c1_strict_decode_agreement_witness :
    (strictDecode exRgba11 = some (hdr11, [⟨10, 20, 30, 40⟩]) ∧
     hdr11.width * hdr11.height < 4294967296) ∧
    ((∀ d : Decoder, Decoder.decode d exRgba11 = .ok (hdr11, [⟨10, 20, 30, 40⟩])) ∧
     (feedPixels (StreamDecoder.reset StreamDecoder.new) exRgba11).2 =
       .ok [⟨10, 20, 30, 40⟩]) :=
  ⟨⟨rfl, by decide⟩,
   c1_strict_decode_agreement exRgba11 hdr11 [⟨10, 20, 30, 40⟩] rfl (by decide)⟩
